import Mathlib

/-!
Verification development for the Fading Light multi-agent simulation
(src/backend/src/engine.py, src/backend/src/memory.py, src/backend/src/agent.py).

The Python code is shallowly embedded: machine floats are idealised as exact
rationals (vector components) and real numbers (similarity scores), Python
exceptions become Except / explicit error results, and the mutable engine
object becomes an explicit EngineState record that every operation threads.
External collaborators (the text-generation service, the embedding service and
the random shuffle) are modelled as an explicit Env of oracle functions, as the
specification treats them as injected interfaces.
-/

namespace FadingLight

/-- A long-term memory record, from memory.py MemoryItem.  The unused
importance field (a constant 1.0 never read anywhere) is omitted.
Embedding vectors of floats are idealised as rational vectors. -/
structure MemoryItem where
  content : String
  embedding : List ℚ
  timestamp : ℕ
deriving DecidableEq, Repr

/-- Dual-tier agent memory, from memory.py AgentMemory: a bounded short-term
buffer (Python deque with maxlen = short_term_limit) and an append-only
long-term store. -/
structure AgentMemory where
  short_term : List String
  short_term_limit : ℕ
  long_term : List MemoryItem
deriving DecidableEq, Repr

/-- One tool call of the generation-service response, from the AIMessage
tool_calls entries read by engine.py and agent.py.  The args dictionary
lookups args.get(..., default) are mirrored with Option fields. -/
structure ToolCall where
  name : String
  amount? : Option ℤ
  reason? : Option String
deriving DecidableEq, Repr

/-- A generation-service response (AIMessage): a possibly empty list of tool
calls plus free text content. -/
structure Response where
  tool_calls : List ToolCall
  content : String
deriving DecidableEq, Repr

/-- The dot product of two rational vectors, modelling np.dot on equal-length
embedding vectors (memory.py line 99). -/
def dot (v w : List ℚ) : ℚ :=
  (List.zipWith (· * ·) v w).sum

/-- The squared Euclidean norm of a vector; np.linalg.norm v equals the real
square root of normSq v. -/
def normSq (v : List ℚ) : ℚ :=
  dot v v

/-- The cosine-similarity score computed at memory.py line 99, idealised over
the reals: dot(a, b) / (norm(a) * norm(b)). -/
noncomputable def realSimAux (b d a : ℚ) : ℝ :=
  (d : ℝ) / (Real.sqrt (b : ℝ) * Real.sqrt (a : ℝ))

/-- Cosine similarity of a query vector q and a stored vector e, exactly the
expression np.dot(q, e) / (np.linalg.norm q * np.linalg.norm e). -/
noncomputable def realSim (q e : List ℚ) : ℝ :=
  realSimAux (normSq q) (dot q e) (normSq e)

/-- Sign class of the score d / (sqrt b * sqrt a) in its second factor:
0 when the stored vector has zero norm (score 0 by the total-division
convention), otherwise the sign of the dot product d. -/
def simSign (d a : ℚ) : ℤ :=
  if a ≤ 0 then 0
  else if 0 < d then 1
  else if d < 0 then -1
  else 0

/-- Decidable comparison of two cosine scores sharing the query factor
sqrt b: simGE b d1 a1 d2 a2 decides
realSimAux b d2 a2 ≤ realSimAux b d1 a1 without computing square roots,
by comparing sign classes and then squared magnitudes. -/
def simGE (b d1 a1 d2 a2 : ℚ) : Bool :=
  if b ≤ 0 then true
  else if simSign d2 a2 < simSign d1 a1 then true
  else if simSign d1 a1 < simSign d2 a2 then false
  else if simSign d1 a1 = 1 then decide (d2 ^ 2 * a1 ≤ d1 ^ 2 * a2)
  else if simSign d1 a1 = -1 then decide (d1 ^ 2 * a2 ≤ d2 ^ 2 * a1)
  else true

/-- Stable insertion into a list sorted in non-increasing order by the Boolean
comparison geB: the new element goes before the first strictly smaller
element, hence after every earlier element of equal score. -/
def insertGE {α : Type} (geB : α → α → Bool) (x : α) : List α → List α
  | [] => [x]
  | y :: ys => if geB x y then x :: y :: ys else y :: insertGE geB x ys

/-- Stable descending sort by the Boolean comparison geB, modelling the
Python stable list.sort(key, reverse=True) of memory.py line 103. -/
def sortByGE {α : Type} (geB : α → α → Bool) : List α → List α
  | [] => []
  | x :: xs => insertGE geB x (sortByGE geB xs)

/-- Appends to the bounded short-term buffer, dropping the oldest entries when
the Python deque maxlen is exceeded. -/
def pushLimited (l : List String) (limit : ℕ) (x : String) : List String :=
  let l' := l ++ [x]
  if limit < l'.length then l'.drop (l'.length - limit) else l'

/-- External collaborators injected into the engine: the embedding service,
the generation service (which may fail, modelled by Except), and the
random-order policy used to shuffle each round.  respond receives the data
the Python agent.respond call depends on: the agent, its current memory and
the current time / global essence / personal essence numbers. -/
structure Agent where
  agent_id : String
  name : String
  personality : String
deriving DecidableEq, Repr

structure Env where
  embed : String → List ℚ
  respond : Agent → AgentMemory → ℕ → ℤ → ℤ → Except String Response
  shuffleRound : ℕ → List Agent → List Agent

/-- AgentMemory.add_interaction: formats the entry into the short-term buffer
and appends an embedded MemoryItem to the long-term store. -/
def add_interaction (env : Env) (mem : AgentMemory) (content : String) (timestamp : ℕ) : AgentMemory :=
  { mem with
    short_term := pushLimited mem.short_term mem.short_term_limit
      ("[" ++ toString timestamp ++ "] " ++ content)
    long_term := mem.long_term ++ [⟨content, env.embed content, timestamp⟩] }

/-- AgentMemory.get_short_term_context: newline-join of the buffer. -/
def get_short_term_context (mem : AgentMemory) : String :=
  String.intercalate "\n" mem.short_term

/-- AgentMemory.retrieve_relevant: empty store gives empty output; otherwise
every stored item is scored by cosine similarity against the embedded query,
the items are stably sorted by score descending and the first top_k are
formatted as [timestamp] content.  The float score kept by the Python code is
represented by the exact pair (dot product, squared norm); comparisons go
through simGE, which is proved equivalent to comparing the real scores. -/
def retrieve_relevant (env : Env) (mem : AgentMemory) (query : String) (top_k : ℕ) : List String :=
  if mem.long_term = [] then []
  else
    let q := env.embed query
    let b := normSq q
    let scored : List ((ℚ × ℚ) × MemoryItem) :=
      mem.long_term.map (fun it => ((dot q it.embedding, normSq it.embedding), it))
    let sorted := sortByGE (fun x y => simGE b x.1.1 x.1.2 y.1.1 y.1.2) scored
    (sorted.take top_k).map (fun x => "[" ++ toString x.2.timestamp ++ "] " ++ x.2.content)

/-- The string recorded by agent.py _node_memorize: the first tool call (when
any is present) is reported as an action, otherwise the dialogue text is
recorded as Me: text. -/
def memorize_content (r : Response) : String :=
  match r.tool_calls with
  | tc :: _ =>
      "Me: [ACTION] I decided to take " ++ toString (tc.amount?.getD 0) ++
        " essence. Reason: " ++ tc.reason?.getD ""
  | [] => "Me: " ++ r.content

/-- agent.py _node_memorize: saves the turn outcome into the own memory of
this agent via add_interaction at the current simulation time. -/
def node_memorize (env : Env) (mem : AgentMemory) (r : Response) (t : ℕ) : AgentMemory :=
  add_interaction env mem (memorize_content r) t

/-- agent.py listen: an agent passively records a broadcast message in its
memory as sender: message. -/
def listen (env : Env) (mem : AgentMemory) (sender message : String) (t : ℕ) : AgentMemory :=
  add_interaction env mem (sender ++ ": " ++ message) t

/-- A message queued for polling (engine.py _push_message).  The wall-clock
time.time() stamp recorded by the Python code is external input/output and is
not modelled; no claim depends on it. -/
structure Msg where
  sender : String
  content : String
  mtype : String
deriving DecidableEq, Repr

/-- The result of get_next_message: a popped queue message, one of the two
derived signals, or nothing. -/
inductive PollResult where
  | message (m : Msg)
  | turnOver
  | simulationEnded
  | noMessage
deriving DecidableEq, Repr

/-- An error escaping the round-processing loop: a generation-service failure
(a Python exception propagating out of agent.respond), or exhaustion of the
fuel bound used to embed the Python while loop (proved unreachable for the
fuel generate_round supplies). -/
inductive RoundErr where
  | service (msg : String)
  | outOfFuel
deriving DecidableEq, Repr

/-- The value generate_round hands back: the not-initialized error dict, the
simulation_ended status, the round_completed status, or a propagating
exception carrying a RoundErr. -/
inductive GenResult where
  | notRunning
  | simulationEnded
  | completed (round : ℕ)
  | raised (e : RoundErr)
deriving DecidableEq, Repr

/-- One roster entry of the static configuration (config/agents.yaml). -/
structure AgentCfg where
  id : String
  name : String
  personality : String
deriving DecidableEq, Repr

/-- The static configuration: roster, economy, scenario and settings values
read by engine.py reset_to_defaults and select_agents. -/
structure Config where
  agents : List AgentCfg
  global_initial : ℤ
  global_replenish : ℤ
  agent_initial : ℤ
  agent_decay : ℤ
  max_discussion_turns : ℕ
  max_rounds : ℕ
  short_term_limit : ℕ
  initial_message : String

/-- The whole mutable state of engine.py SimulationEngine.  Python dicts keyed
by agent id become total functions with default value 0 (a key is only ever
read after it was written).  Per-agent memories live in the engine state,
keyed by agent id, because the Python agent objects are shared between the
agents list and the pending queue.  faded_log is specification-only ghost
state: it records the agent id of every faded broadcast emitted, so that
temporal claims can count them; no operation reads it. -/
structure EngineState where
  agents : List Agent
  memories : String → AgentMemory
  current_time : ℕ
  round_num : ℕ
  global_resource : ℤ
  agent_resources : String → ℤ
  message_queue : List Msg
  pending_agents : List Agent
  agents_done : Finset String
  turns_in_round : ℕ
  is_running : Bool
  max_rounds : ℕ
  max_discussion_turns : ℕ
  short_term_limit : ℕ
  global_replenish : ℤ
  agent_decay : ℤ
  agent_initial : ℤ
  initial_message : String
  faded_log : List String

/-- Point update of a dict modelled as a total function. -/
def updateFn {β : Type} (f : String → β) (k : String) (v : β) : String → β :=
  fun x => if x = k then v else f x

/-- engine.py reset_to_defaults: the state right after construction or reset,
with every counter cleared and the economy loaded from the configuration. -/
def reset_st (cfg : Config) : EngineState :=
  { agents := []
    memories := fun _ => ⟨[], cfg.short_term_limit, []⟩
    current_time := 0
    round_num := 0
    global_resource := cfg.global_initial
    agent_resources := fun _ => 0
    message_queue := []
    pending_agents := []
    agents_done := ∅
    turns_in_round := 0
    is_running := false
    max_rounds := cfg.max_rounds
    max_discussion_turns := cfg.max_discussion_turns
    short_term_limit := cfg.short_term_limit
    global_replenish := cfg.global_replenish
    agent_decay := cfg.agent_decay
    agent_initial := cfg.agent_initial
    initial_message := cfg.initial_message
    faded_log := [] }

/-- engine.py _push_message: appends one message to the polling queue. -/
def push_message (st : EngineState) (sender content mtype : String) : EngineState :=
  { st with message_queue := st.message_queue ++ [⟨sender, content, mtype⟩] }

/-- engine.py broadcast: queue the message, then let every agent whose display
name differs from the sender listen to it.  The exclusion is keyed on the
display name, exactly as in the source. -/
def broadcast (env : Env) (sender_name message : String) (st : EngineState) : EngineState :=
  let st1 := push_message st sender_name message "text"
  { st1 with
    memories := st1.agents.foldl
      (fun mems ag =>
        if ag.name ≠ sender_name then
          updateFn mems ag.agent_id (listen env (mems ag.agent_id) sender_name message st1.current_time)
        else mems)
      st1.memories }

/-- engine.py select_agents: looks each requested id up in the configured
roster (first match), keeping only the ids that are found; initializes those
agents with fresh memories and the configured initial vitality, marks the
simulation running, resets the round counter and queues the init message.
Unknown ids are silently skipped. -/
def select_agents (cfg : Config) (ids : List String) (st : EngineState) : EngineState :=
  let found := ids.filterMap (fun i =>
    (cfg.agents.find? (fun a => a.id = i)).map (fun a => (⟨a.id, a.name, a.personality⟩ : Agent)))
  let foundIds := found.map (fun a => a.agent_id)
  let st1 :=
    { st with
      agents := found
      memories := fun aid =>
        if aid ∈ foundIds then ⟨[], st.short_term_limit, []⟩ else st.memories aid
      agent_resources := fun aid => if aid ∈ foundIds then st.agent_initial else 0
      is_running := true
      round_num := 0 }
  push_message st1 "SYSTEM"
    ("Simulation initialized with " ++ toString found.length ++ " agents.") "text"

/-- engine.py update_settings: in-place override of the optional fields. -/
structure NewSettings where
  global_initial : Option ℤ
  max_rounds : Option ℕ
  global_replenish : Option ℤ
  agent_decay : Option ℤ

def update_settings (ns : NewSettings) (st : EngineState) : EngineState :=
  let st := match ns.global_initial with
    | some v => { st with global_resource := v }
    | none => st
  let st := match ns.max_rounds with
    | some v => { st with max_rounds := v }
    | none => st
  let st := match ns.global_replenish with
    | some v => { st with global_replenish := v }
    | none => st
  match ns.agent_decay with
    | some v => { st with agent_decay := v }
    | none => st

/-- engine.py get_next_message: pop the queue head when the queue is
non-empty; otherwise, when the simulation is running, a round has started and
the pending queue is empty, derive turn_over or simulation_ended on demand;
otherwise nothing.  The Python condition repeats the queue-emptiness test,
which is kept here verbatim. -/
def get_next_message (st : EngineState) : PollResult × EngineState :=
  match st.message_queue with
  | m :: rest => (.message m, { st with message_queue := rest })
  | [] =>
    if st.is_running = true ∧ 0 < st.round_num ∧ st.pending_agents = []
        ∧ st.message_queue = [] then
      if st.max_rounds ≤ st.round_num then (.simulationEnded, st)
      else (.turnOver, st)
    else (.noMessage, st)

/-- One iteration of the decay loop of engine.py start_new_round, folded over
the agents list: an agent with positive vitality is decayed; on dropping to
zero or below its vitality is clamped to 0, the faded broadcast is emitted
(and logged in the ghost faded_log); a survivor is appended to the active
list. -/
def decayStep (env : Env) (acc : EngineState × List Agent) (agent : Agent) : EngineState × List Agent :=
  let st := acc.1
  let active := acc.2
  let r := st.agent_resources agent.agent_id
  if 0 < r then
    let r2 := r - st.agent_decay
    if r2 ≤ 0 then
      let st1 := { st with
        agent_resources := updateFn st.agent_resources agent.agent_id 0
        faded_log := st.faded_log ++ [agent.agent_id] }
      (broadcast env "SYSTEM" (agent.name ++ " has faded away.") st1, active)
    else
      ({ st with agent_resources := updateFn st.agent_resources agent.agent_id r2 },
        active ++ [agent])
  else (st, active)

/-- engine.py start_new_round: bump the round counter, reset the turn counter
and done set, announce the round, replenish the pool, decay every agent
(emitting faded broadcasts for deaths), then either end the simulation when
nobody survives or shuffle the survivors into the pending queue. -/
def start_new_round (env : Env) (st : EngineState) : EngineState :=
  let st1 := { st with
    round_num := st.round_num + 1
    turns_in_round := 0
    agents_done := ∅ }
  let st2 := push_message st1 "SYSTEM"
    ("--- Starting Round " ++ toString st1.round_num ++ " ---") "round_start"
  let st3 := { st2 with global_resource := st2.global_resource + st2.global_replenish }
  let st4 := push_message st3 "SYSTEM"
    ("Global Essence replenishes by " ++ toString st3.global_replenish ++
      ". Total: " ++ toString st3.global_resource) "text"
  let dec := st4.agents.foldl (decayStep env) (st4, [])
  let st5 := dec.1
  let active := dec.2
  if active = [] then
    let st6 := push_message st5 "SYSTEM" "All agents have faded. Simulation Over." "simulation_ended"
    { st6 with is_running := false }
  else
    { st5 with pending_agents := env.shuffleRound st5.round_num active }

/-- engine.py _process_take_action: scan the tool calls for the first one
named take_essence; if present, withdraw min(amount, global_resource) from
the pool into the agent personal vitality (no lower clamp) and broadcast the
take, appending the reason when non-empty.  Returns whether an action was
taken together with the new state. -/
def process_take_action (env : Env) (agent : Agent) (r : Response) (st : EngineState) :
    Bool × EngineState :=
  match r.tool_calls.find? (fun tc => tc.name = "take_essence") with
  | none => (false, st)
  | some tc =>
    let amount := tc.amount?.getD 0
    let reason := tc.reason?.getD ""
    let actual := min amount st.global_resource
    let st1 := { st with
      global_resource := st.global_resource - actual
      agent_resources := updateFn st.agent_resources agent.agent_id
        (st.agent_resources agent.agent_id + actual) }
    let msg0 := agent.name ++ " took " ++ toString actual ++
      " Essence. (Global Remaining: " ++ toString st1.global_resource ++ ")"
    let msg := if reason ≠ "" then
        msg0 ++ "\n   Reason: \x22" ++ reason ++ "\x22"
      else msg0
    (true, broadcast env "SYSTEM" msg st1)

/-- engine.py _step_once: pop the head pending agent, advance the clock and
turn counter, run the agent response cycle (whose memorize node records the
outcome in the agent own memory), process a take action or re-queue a talking
agent after broadcasting non-empty dialogue, and force the round to end when
the discussion-turn cap is reached.  A generation-service failure surfaces as
a service error, leaving the state exactly as mutated so far: the agent
already popped and both counters already advanced, as in the Python code
where the exception escapes after those mutations. -/
def step_once (env : Env) (st : EngineState) : Option RoundErr × EngineState :=
  match st.pending_agents with
  | [] => (none, st)
  | a :: rest =>
    let st1 := { st with
      pending_agents := rest
      current_time := st.current_time + 1
      turns_in_round := st.turns_in_round + 1 }
    match env.respond a (st1.memories a.agent_id) st1.current_time st1.global_resource
        (st1.agent_resources a.agent_id) with
    | .error e => (some (.service e), st1)
    | .ok r =>
      let st2 := { st1 with
        memories := updateFn st1.memories a.agent_id
          (node_memorize env (st1.memories a.agent_id) r st1.current_time) }
      let taken := process_take_action env a r st2
      let st3 : EngineState := taken.2
      let st4 : EngineState :=
        if taken.1 then { st3 with agents_done := insert a.agent_id st3.agents_done }
        else
          let st3b := if r.content ≠ "" then broadcast env a.name r.content st3 else st3
          { st3b with pending_agents := st3b.pending_agents ++ [a] }
      if st4.max_discussion_turns ≤ st4.turns_in_round then
        let st5 := push_message st4 "SYSTEM" "Discussion limit reached. Round ending." "text"
        (none, { st5 with pending_agents := [] })
      else (none, st4)

/-- The while loop of engine.py generate_round, embedded with an explicit fuel
bound: while the pending queue is non-empty, take one step; a step error
aborts the loop.  The round number cannot change inside the loop, so the
Python conjunct round_num == start_round is always true and is dropped.  The
fuel generate_round supplies is proved sufficient, so outOfFuel never occurs
there. -/
def round_loop (env : Env) : ℕ → EngineState → Option RoundErr × EngineState
  | fuel, st =>
    if st.pending_agents = [] then (none, st)
    else
      match fuel with
      | 0 => (some .outOfFuel, st)
      | fuel' + 1 =>
        match step_once env st with
        | (some e, st') => (some e, st')
        | (none, st') => round_loop env fuel' st'

/-- engine.py generate_round: refuse when not running; report simulation_ended
when no round is pending and the round cap is reached; otherwise start a new
round if none is pending and process turns until the pending queue empties,
propagating a service failure. -/
def generate_round (env : Env) (st : EngineState) : GenResult × EngineState :=
  if st.is_running = false then (.notRunning, st)
  else if st.pending_agents = [] ∧ st.max_rounds ≤ st.round_num then (.simulationEnded, st)
  else
    let st1 := if st.pending_agents = [] then start_new_round env st else st
    match round_loop env (st1.max_discussion_turns + 2) st1 with
    | (some e, st2) => (.raised e, st2)
    | (none, st2) => (.completed st2.round_num, st2)

/-- The state of start_new_round just before the decay loop: round counter
bumped, turn counter and done set cleared, round banner pushed, pool
replenished and the replenish message pushed. -/
def preDecayState (st : EngineState) : EngineState :=
  let st1 := { st with
    round_num := st.round_num + 1
    turns_in_round := 0
    agents_done := ∅ }
  let st2 := push_message st1 "SYSTEM"
    ("--- Starting Round " ++ toString st1.round_num ++ " ---") "round_start"
  let st3 := { st2 with global_resource := st2.global_resource + st2.global_replenish }
  push_message st3 "SYSTEM"
    ("Global Essence replenishes by " ++ toString st3.global_replenish ++
      ". Total: " ++ toString st3.global_resource) "text"

/-- The decay loop of start_new_round: the state after all decays and faded
broadcasts, paired with the surviving active agents in roster order. -/
def decayResult (env : Env) (st : EngineState) : EngineState × List Agent :=
  (preDecayState st).agents.foldl (decayStep env) (preDecayState st, [])

/-- The agent ids currently waiting in the pending queue. -/
def pendingIds (st : EngineState) : List String :=
  st.pending_agents.map (fun a => a.agent_id)

/-- Ghost count of faded broadcasts emitted for a given agent id. -/
def fadedCount (st : EngineState) (aid : String) : ℕ :=
  st.faded_log.count aid

/-- The turn-cap invariant the code actually maintains in failure-free runs:
the counter stays at or below max(1, cap), and a non-empty pending queue
means the counter is still below the cap or the round has not had a turn
yet. -/
def Inv4 (st : EngineState) : Prop :=
  st.turns_in_round ≤ max 1 st.max_discussion_turns ∧
  (st.pending_agents ≠ [] →
    st.turns_in_round < st.max_discussion_turns ∨ st.turns_in_round = 0)

/-- The life-cycle invariant for a fixed agent id: agent and pending ids stay
duplicate-free, a live agent has no faded broadcast yet, and a dead agent is
out of the pending queue with at most one faded broadcast ever emitted. -/
def Inv8 (aid : String) (st : EngineState) : Prop :=
  (st.agents.map (fun x => x.agent_id)).Nodup ∧
  (pendingIds st).Nodup ∧
  (0 < st.agent_resources aid → fadedCount st aid = 0) ∧
  (st.agent_resources aid ≤ 0 → aid ∉ pendingIds st ∧ fadedCount st aid ≤ 1)

/-- The permanent state of an agent that faded during a round-start decay:
vitality pinned at zero, exactly one faded broadcast ever emitted, and
excluded from the pending queue. -/
def DeadP (aid : String) (st : EngineState) : Prop :=
  st.agent_resources aid = 0 ∧ fadedCount st aid = 1 ∧ aid ∉ pendingIds st

/-- The observable operations a host may interleave after selection:
starting a round (under exactly the guards of generate_round), processing one
turn while the queue is non-empty, polling, and updating settings.
generate_round only composes the first two, so any invariant closed under
FineStep holds across whole round advances as well. -/
inductive FineStep (env : Env) : EngineState → EngineState → Prop
  | startRound {st : EngineState} :
      st.is_running = true → st.pending_agents = [] → st.round_num < st.max_rounds →
      FineStep env st (start_new_round env st)
  | stepTurn {st : EngineState} :
      st.pending_agents ≠ [] → FineStep env st (step_once env st).2
  | poll {st : EngineState} : FineStep env st (get_next_message st).2
  | settings {st : EngineState} (ns : NewSettings) : FineStep env st (update_settings ns st)

/-- Reachability by any number of observable operations. -/
def Reach (env : Env) : EngineState → EngineState → Prop :=
  Relation.ReflTransGen (FineStep env)

/-- Modelled from the spec wording of the poll contract: the simulation has
started once it is running and some round has begun. -/
def simulationStarted (st : EngineState) : Prop :=
  st.is_running = true ∧ 0 < st.round_num

/-- Modelled from the spec wording of the poll contract: the current round has
fully finished and no new round has begun exactly when no agent is pending. -/
def roundFullyFinished (st : EngineState) : Prop :=
  st.pending_agents = []

instance (st : EngineState) : Decidable (simulationStarted st) := by
  unfold simulationStarted
  infer_instance

instance (st : EngineState) : Decidable (roundFullyFinished st) := by
  unfold roundFullyFinished
  infer_instance

/-- The poll contract exactly as the specification states it: a queued message
takes strict precedence; otherwise, once the simulation has started and the
round has fully finished, the signal is derived on demand from the round
number; otherwise nothing.  Nothing is ever enqueued for the signals. -/
def pollSpec (st : EngineState) : PollResult × EngineState :=
  match st.message_queue with
  | m :: rest => (.message m, { st with message_queue := rest })
  | [] =>
    if simulationStarted st ∧ roundFullyFinished st then
      if st.max_rounds ≤ st.round_num then (.simulationEnded, st) else (.turnOver, st)
    else (.noMessage, st)

/-- A benign oracle environment for concrete runs: a constant embedding, a
generation service that always answers with the dialogue hi, and the identity
shuffle. -/
def envW : Env :=
  { embed := fun _ => [1]
    respond := fun _ _ _ _ _ => .ok ⟨[], "hi"⟩
    shuffleRound := fun _ l => l }

/-- An oracle environment whose generation service always fails. -/
def envErrW : Env :=
  { embed := fun _ => [1]
    respond := fun _ _ _ _ _ => .error "generation service failed"
    shuffleRound := fun _ l => l }

def agentA : Agent := ⟨"a", "Alice", "stoic"⟩

def agentB : Agent := ⟨"b", "Bruno", "bold"⟩

/-- A two-agent roster configuration for concrete runs. -/
def cfgW : Config :=
  { agents := [⟨"a", "Alice", "stoic"⟩, ⟨"b", "Bruno", "bold"⟩]
    global_initial := 50
    global_replenish := 5
    agent_initial := 70
    agent_decay := 10
    max_discussion_turns := 4
    max_rounds := 3
    short_term_limit := 3
    initial_message := "start" }

/-- A configuration whose discussion-turn cap is zero. -/
def cfgZeroW : Config :=
  { agents := [⟨"a", "Alice", "stoic"⟩]
    global_initial := 50
    global_replenish := 5
    agent_initial := 70
    agent_decay := 10
    max_discussion_turns := 0
    max_rounds := 3
    short_term_limit := 3
    initial_message := "start" }

/-- A configuration whose decay kills its single agent in the first round. -/
def cfgFadeW : Config :=
  { agents := [⟨"a", "Alice", "stoic"⟩]
    global_initial := 50
    global_replenish := 5
    agent_initial := 10
    agent_decay := 10
    max_discussion_turns := 4
    max_rounds := 3
    short_term_limit := 3
    initial_message := "start" }

/-- The state right after selecting both configured agents. -/
def stW : EngineState := select_agents cfgW ["a", "b"] (reset_st cfgW)

/-- A mid-round state: round one has begun and Alice is the pending agent. -/
def stPendW : EngineState := { stW with pending_agents := [agentA], round_num := 1 }

/-- The post-selection state under the zero-cap configuration. -/
def st0Z : EngineState := select_agents cfgZeroW ["a"] (reset_st cfgZeroW)

/-- The state after starting round one and taking a single turn under the
zero-cap configuration. -/
def st1Z : EngineState := (step_once envW (start_new_round envW st0Z)).2

/-- The post-selection state under the fatal-decay configuration. -/
def st0F : EngineState := select_agents cfgFadeW ["a"] (reset_st cfgFadeW)

/-- The state after the first round start under the fatal-decay
configuration, in which Alice fades. -/
def st1F : EngineState := start_new_round envW st0F

/-- A response that takes five essence with a reason. -/
def respTakeW : Response := ⟨[⟨"take_essence", some 5, some "hungry"⟩], ""⟩

/-- A response that takes a negative amount of essence. -/
def respTakeNegW : Response := ⟨[⟨"take_essence", some (-5), some ""⟩], ""⟩

/-- A plain dialogue response. -/
def respDlgW : Response := ⟨[], "hi"⟩

/-- A single stored memory item for retrieval examples. -/
def itemW : MemoryItem := ⟨"m", [1], 1⟩

/-- A memory holding exactly itemW. -/
def memItemW : AgentMemory := ⟨[], 3, [itemW]⟩

lemma zipWith_mul_self (v : List ℚ) :
    List.zipWith (· * ·) v v = v.map (fun x => x * x) := by
  induction v with
  | nil => rfl
  | cons x xs ih => simp [List.zipWith, ih]

lemma normSq_nonneg (v : List ℚ) : 0 ≤ normSq v := by
  unfold normSq dot
  rw [zipWith_mul_self]
  apply List.sum_nonneg
  intro x hx
  rcases List.mem_map.mp hx with ⟨y, _, rfl⟩
  exact mul_self_nonneg y

lemma realSimAux_of_b_nonpos {b : ℚ} (d a : ℚ) (h : b ≤ 0) : realSimAux b d a = 0 := by
  unfold realSimAux
  have hb : Real.sqrt (b : ℝ) = 0 := Real.sqrt_eq_zero'.mpr (by exact_mod_cast h)
  rw [hb, zero_mul, div_zero]

lemma realSimAux_of_a_nonpos (b d : ℚ) {a : ℚ} (h : a ≤ 0) : realSimAux b d a = 0 := by
  unfold realSimAux
  have ha : Real.sqrt (a : ℝ) = 0 := Real.sqrt_eq_zero'.mpr (by exact_mod_cast h)
  rw [ha, mul_zero, div_zero]

lemma realSimAux_of_d_zero (b a : ℚ) : realSimAux b 0 a = 0 := by
  unfold realSimAux
  simp

lemma sqrt_cast_pos {x : ℚ} (hx : 0 < x) : 0 < Real.sqrt (x : ℝ) :=
  Real.sqrt_pos.mpr (by exact_mod_cast hx)

lemma realSimAux_pos {b d a : ℚ} (hb : 0 < b) (ha : 0 < a) (hd : 0 < d) :
    0 < realSimAux b d a :=
  div_pos (by exact_mod_cast hd) (mul_pos (sqrt_cast_pos hb) (sqrt_cast_pos ha))

lemma realSimAux_neg {b d a : ℚ} (hb : 0 < b) (ha : 0 < a) (hd : d < 0) :
    realSimAux b d a < 0 :=
  div_neg_of_neg_of_pos (by exact_mod_cast hd) (mul_pos (sqrt_cast_pos hb) (sqrt_cast_pos ha))

lemma realSimAux_neg_d (b d a : ℚ) : realSimAux b (-d) a = -realSimAux b d a := by
  unfold realSimAux
  push_cast
  rw [neg_div]

/-- Characterisation of the sign class against the real score. -/
lemma simSign_spec (b d a : ℚ) (hb : 0 < b) :
    (simSign d a = 1 ∧ 0 < a ∧ 0 < d ∧ 0 < realSimAux b d a) ∨
    (simSign d a = 0 ∧ realSimAux b d a = 0) ∨
    (simSign d a = -1 ∧ 0 < a ∧ d < 0 ∧ realSimAux b d a < 0) := by
  by_cases ha : a ≤ 0
  · exact Or.inr (Or.inl ⟨by simp [simSign, ha], realSimAux_of_a_nonpos b d ha⟩)
  · have ha' : 0 < a := lt_of_not_ge ha
    by_cases hd : 0 < d
    · exact Or.inl ⟨by simp [simSign, ha, hd], ha', hd, realSimAux_pos hb ha' hd⟩
    · by_cases hd' : d < 0
      · refine Or.inr (Or.inr ⟨?_, ha', hd', realSimAux_neg hb ha' hd'⟩)
        simp [simSign, ha, hd, hd']
      · have hd0 : d = 0 := le_antisymm (le_of_not_gt hd) (le_of_not_gt hd')
        subst hd0
        exact Or.inr (Or.inl ⟨by simp [simSign, ha], realSimAux_of_d_zero b a⟩)

lemma core_pos {b d1 a1 d2 a2 : ℚ} (hb : 0 < b) (ha1 : 0 < a1) (ha2 : 0 < a2)
    (hd1 : 0 < d1) (hd2 : 0 < d2) :
    (d2 ^ 2 * a1 ≤ d1 ^ 2 * a2 ↔ realSimAux b d2 a2 ≤ realSimAux b d1 a1) := by
  unfold realSimAux
  have sb : 0 < Real.sqrt (b : ℝ) := sqrt_cast_pos hb
  have s1 : 0 < Real.sqrt (a1 : ℝ) := sqrt_cast_pos ha1
  have s2 : 0 < Real.sqrt (a2 : ℝ) := sqrt_cast_pos ha2
  rw [div_le_div_iff₀ (mul_pos sb s2) (mul_pos sb s1)]
  have h1 : (d2 : ℝ) * (Real.sqrt b * Real.sqrt a1) = Real.sqrt b * ((d2 : ℝ) * Real.sqrt a1) := by
    ring
  have h2 : (d1 : ℝ) * (Real.sqrt b * Real.sqrt a2) = Real.sqrt b * ((d1 : ℝ) * Real.sqrt a2) := by
    ring
  rw [h1, h2, mul_le_mul_left sb]
  have hx : (0 : ℝ) ≤ (d2 : ℝ) * Real.sqrt a1 :=
    mul_nonneg (by exact_mod_cast hd2.le) s1.le
  have hy : (0 : ℝ) ≤ (d1 : ℝ) * Real.sqrt a2 :=
    mul_nonneg (by exact_mod_cast hd1.le) s2.le
  rw [← pow_le_pow_iff_left₀ hx hy (two_ne_zero), mul_pow, mul_pow,
    Real.sq_sqrt (by exact_mod_cast ha1.le : (0:ℝ) ≤ (a1 : ℝ)),
    Real.sq_sqrt (by exact_mod_cast ha2.le : (0:ℝ) ≤ (a2 : ℝ))]
  constructor
  · intro h
    exact_mod_cast h
  · intro h
    exact_mod_cast h

lemma core_neg {b d1 a1 d2 a2 : ℚ} (hb : 0 < b) (ha1 : 0 < a1) (ha2 : 0 < a2)
    (hd1 : d1 < 0) (hd2 : d2 < 0) :
    (d1 ^ 2 * a2 ≤ d2 ^ 2 * a1 ↔ realSimAux b d2 a2 ≤ realSimAux b d1 a1) := by
  have h := core_pos hb ha2 ha1 (neg_pos.mpr hd2) (neg_pos.mpr hd1)
  rw [realSimAux_neg_d, realSimAux_neg_d, neg_le_neg_iff] at h
  rw [← h, neg_pow, neg_pow]
  norm_num

/-- The Boolean comparator simGE decides the comparison of the two real
cosine scores sharing the query factor, for arbitrary rational inputs. -/
lemma simGE_iff (b d1 a1 d2 a2 : ℚ) :
    simGE b d1 a1 d2 a2 = true ↔ realSimAux b d2 a2 ≤ realSimAux b d1 a1 := by
  unfold simGE
  by_cases hb : b ≤ 0
  · simp [hb, realSimAux_of_b_nonpos d1 a1 hb, realSimAux_of_b_nonpos d2 a2 hb]
  · have hb' : 0 < b := lt_of_not_ge hb
    rcases simSign_spec b d1 a1 hb' with ⟨hs1, ha1, hd1, hr1⟩ | ⟨hs1, hr1⟩ | ⟨hs1, ha1, hd1, hr1⟩
    · rcases simSign_spec b d2 a2 hb' with ⟨hs2, ha2, hd2, hr2⟩ | ⟨hs2, hr2⟩ | ⟨hs2, ha2, hd2, hr2⟩
      · simp only [hs1, hs2, hb, if_false, lt_irrefl, if_true, decide_eq_true_eq]
        exact core_pos hb' ha1 ha2 hd1 hd2
      · simp only [hs1, hs2, hb, if_false]
        norm_num
        rw [hr2]
        exact hr1.le
      · simp only [hs1, hs2, hb, if_false]
        norm_num
        exact hr2.le.trans hr1.le
    · rcases simSign_spec b d2 a2 hb' with ⟨hs2, ha2, hd2, hr2⟩ | ⟨hs2, hr2⟩ | ⟨hs2, ha2, hd2, hr2⟩
      · simp only [hs1, hs2, hb, if_false]
        norm_num
        rw [hr1]
        exact hr2
      · simp only [hs1, hs2, hb, if_false]
        norm_num
        rw [hr1, hr2]
      · simp only [hs1, hs2, hb, if_false]
        norm_num
        rw [hr1]
        exact hr2.le
    · rcases simSign_spec b d2 a2 hb' with ⟨hs2, ha2, hd2, hr2⟩ | ⟨hs2, hr2⟩ | ⟨hs2, ha2, hd2, hr2⟩
      · simp only [hs1, hs2, hb, if_false]
        norm_num
        exact hr1.trans hr2
      · simp only [hs1, hs2, hb, if_false]
        norm_num
        rw [hr2]
        exact hr1
      · simp only [hs1, hs2, hb, if_false, decide_eq_true_eq]
        norm_num
        exact core_neg hb' ha1 ha2 hd1 hd2

lemma insertGE_perm {α : Type} (geB : α → α → Bool) (x : α) (l : List α) :
    (insertGE geB x l).Perm (x :: l) := by
  induction l with
  | nil => exact List.Perm.refl _
  | cons y ys ih =>
    unfold insertGE
    by_cases h : geB x y
    · simp [h]
    · simp only [h, if_false, Bool.false_eq_true]
      exact (List.Perm.cons y ih).trans (List.Perm.swap x y ys)

lemma sortByGE_perm {α : Type} (geB : α → α → Bool) (l : List α) :
    (sortByGE geB l).Perm l := by
  induction l with
  | nil => exact List.Perm.refl _
  | cons x xs ih =>
    exact (insertGE_perm geB x (sortByGE geB xs)).trans (List.Perm.cons x ih)

lemma mem_insertGE {α : Type} {geB : α → α → Bool} {x z : α} {l : List α}
    (h : z ∈ insertGE geB x l) : z = x ∨ z ∈ l := by
  have := (insertGE_perm geB x l).mem_iff.mp h
  simpa using this

/-- Stable insertion preserves the strict descending lexicographic order on
(score, index) provided the inserted element has the smallest index. -/
lemma insertGE_pairwise {α : Type} (geB : α → α → Bool) (σ : α → ℝ) (idx : α → ℕ)
    (hge : ∀ x y, geB x y = true ↔ σ y ≤ σ x)
    (x : α) (l : List α)
    (hl : l.Pairwise (fun u v => σ v < σ u ∨ (σ u = σ v ∧ idx u < idx v)))
    (hx : ∀ y ∈ l, idx x < idx y) :
    (insertGE geB x l).Pairwise (fun u v => σ v < σ u ∨ (σ u = σ v ∧ idx u < idx v)) := by
  induction l with
  | nil => simp [insertGE]
  | cons y ys ih =>
    rcases List.pairwise_cons.mp hl with ⟨hy, hys⟩
    unfold insertGE
    by_cases h : geB x y
    · simp only [h, if_true]
      refine List.pairwise_cons.mpr ⟨?_, hl⟩
      intro z hz
      have hyx : σ y ≤ σ x := (hge x y).mp h
      rcases List.mem_cons.mp hz with rfl | hz
      · rcases lt_or_eq_of_le hyx with h' | h'
        · exact Or.inl h'
        · exact Or.inr ⟨h'.symm, hx z (List.mem_cons_self _ _)⟩
      · have hzy : σ z ≤ σ y := by
          rcases hy z hz with h' | ⟨h', _⟩
          · exact h'.le
          · exact le_of_eq h'.symm
        rcases lt_or_eq_of_le (hzy.trans hyx) with h' | h'
        · exact Or.inl h'
        · exact Or.inr ⟨h'.symm, hx z (List.mem_cons_of_mem _ hz)⟩
    · simp only [h, if_false, Bool.false_eq_true]
      have hxy : σ x < σ y := by
        have := (hge x y).not.mp (by simp [h])
        exact lt_of_not_ge (fun hc => this hc)
      refine List.pairwise_cons.mpr ⟨?_, ih hys (fun z hz => hx z (List.mem_cons_of_mem _ hz))⟩
      intro z hz
      rcases mem_insertGE hz with rfl | hz
      · exact Or.inl hxy
      · exact hy z hz

/-- Stable descending sort of a list whose indices strictly increase yields a
list strictly sorted by (score descending, index ascending). -/
lemma sortByGE_pairwise {α : Type} (geB : α → α → Bool) (σ : α → ℝ) (idx : α → ℕ)
    (hge : ∀ x y, geB x y = true ↔ σ y ≤ σ x)
    (l : List α) (hidx : l.Pairwise (fun u v => idx u < idx v)) :
    (sortByGE geB l).Pairwise (fun u v => σ v < σ u ∨ (σ u = σ v ∧ idx u < idx v)) := by
  induction l with
  | nil => simp [sortByGE]
  | cons x xs ih =>
    rcases List.pairwise_cons.mp hidx with ⟨hx, hxs⟩
    unfold sortByGE
    refine insertGE_pairwise geB σ idx hge x (sortByGE geB xs) (ih hxs) ?_
    intro y hy
    exact hx y ((sortByGE_perm geB xs).mem_iff.mp hy)

lemma insertGE_map {α β : Type} (geB : α → α → Bool) (geB' : β → β → Bool) (f : β → α)
    (hcomp : ∀ x y, geB' x y = geB (f x) (f y)) (x : β) (l : List β) :
    insertGE geB (f x) (l.map f) = (insertGE geB' x l).map f := by
  induction l with
  | nil => rfl
  | cons y ys ih =>
    simp only [List.map_cons, insertGE, ← hcomp]
    by_cases h : geB' x y
    · simp [h]
    · simp [h, ih]

lemma sortByGE_map {α β : Type} (geB : α → α → Bool) (geB' : β → β → Bool) (f : β → α)
    (hcomp : ∀ x y, geB' x y = geB (f x) (f y)) (l : List β) :
    sortByGE geB (l.map f) = (sortByGE geB' l).map f := by
  induction l with
  | nil => rfl
  | cons x xs ih =>
    simp only [List.map_cons, sortByGE, ih]
    exact insertGE_map geB geB' f hcomp x (sortByGE geB' xs)

lemma pairwise_fst_enumFrom {γ : Type} (l : List γ) (n : ℕ) :
    (l.enumFrom n).Pairwise (fun p q => p.1 < q.1) := by
  induction l generalizing n with
  | nil => simp
  | cons x xs ih =>
    refine List.pairwise_cons.mpr ⟨?_, ih (n + 1)⟩
    intro q hq
    have h := List.le_fst_of_mem_enumFrom hq
    omega

/-- C5.  For every query and every long-term store contents, retrieve_relevant
returns the empty sequence when the store is empty; otherwise it scores every
stored item by cosine similarity dot(q,e)/(norm q * norm e) against the
embedded query, sorts all items by similarity descending with ties broken by
original insertion order (stable sort), and returns at most top_k items, each
formatted as [timestamp] content.  The witness list l enumerates the store
with its insertion indices: it is strictly ordered by (similarity descending,
insertion index ascending), which is exactly the stable descending sort. -/
theorem c5_retrieve_relevant_sorted (env : Env) (mem : AgentMemory) (query : String) (top_k : ℕ) :
    retrieve_relevant env { mem with long_term := [] } query top_k = [] ∧
    (retrieve_relevant env mem query top_k).length ≤ top_k ∧
    ∃ l : List (ℕ × MemoryItem),
      mem.long_term.enum.Perm l ∧
      l.Pairwise (fun u v =>
        realSim (env.embed query) v.2.embedding < realSim (env.embed query) u.2.embedding ∨
        (realSim (env.embed query) u.2.embedding = realSim (env.embed query) v.2.embedding ∧
          u.1 < v.1)) ∧
      retrieve_relevant env mem query top_k =
        (l.take top_k).map (fun p => "[" ++ toString p.2.timestamp ++ "] " ++ p.2.content) := by
  refine ⟨by simp [retrieve_relevant], ?_, ?_⟩
  · by_cases hemp : mem.long_term = []
    · simp [retrieve_relevant, hemp]
    · simp only [retrieve_relevant, hemp, if_false]
      simp [List.length_take]
  · by_cases hemp : mem.long_term = []
    · refine ⟨[], by simp [hemp], by simp, by simp [retrieve_relevant, hemp]⟩
    · have hq : env.embed query = env.embed query := rfl
      set q : List ℚ := env.embed query with hqdef
      set b : ℚ := normSq q with hbdef
      set g : ℕ × MemoryItem → (ℚ × ℚ) × (ℕ × MemoryItem) :=
        fun p => ((dot q p.2.embedding, normSq p.2.embedding), p) with hgdef
      set scoredIdx : List ((ℚ × ℚ) × (ℕ × MemoryItem)) := mem.long_term.enum.map g
        with hscored
      set geB : (ℚ × ℚ) × MemoryItem → (ℚ × ℚ) × MemoryItem → Bool :=
        fun x y => simGE b x.1.1 x.1.2 y.1.1 y.1.2 with hgeB
      set geB' : (ℚ × ℚ) × (ℕ × MemoryItem) → (ℚ × ℚ) × (ℕ × MemoryItem) → Bool :=
        fun x y => simGE b x.1.1 x.1.2 y.1.1 y.1.2 with hgeB'
      set f : (ℚ × ℚ) × (ℕ × MemoryItem) → (ℚ × ℚ) × MemoryItem :=
        fun x => (x.1, x.2.2) with hfdef
      set lIdx := sortByGE geB' scoredIdx with hlIdx
      refine ⟨lIdx.map (fun x => x.2), ?_, ?_, ?_⟩
      · have h1 : lIdx.Perm scoredIdx := sortByGE_perm geB' scoredIdx
        have h2 : (lIdx.map (fun x => x.2)).Perm (scoredIdx.map (fun x => x.2)) :=
          h1.map _
        have h3 : scoredIdx.map (fun x => x.2) = mem.long_term.enum := by
          rw [hscored, List.map_map]
          have hcg : ((fun x : (ℚ × ℚ) × ℕ × MemoryItem => x.2) ∘ g) = id := by
            funext p
            simp [hgdef]
          rw [hcg, List.map_id]
        rw [h3] at h2
        exact h2.symm
      · have hge : ∀ x y, geB' x y = true ↔
            realSimAux b y.1.1 y.1.2 ≤ realSimAux b x.1.1 x.1.2 := by
          intro x y
          exact simGE_iff b x.1.1 x.1.2 y.1.1 y.1.2
        have hidx : scoredIdx.Pairwise (fun u v => u.2.1 < v.2.1) := by
          rw [hscored]
          refine List.pairwise_map.mpr ?_
          have := pairwise_fst_enumFrom mem.long_term 0
          refine this.imp ?_
          intro u v huv
          simpa [hgdef] using huv
        have hpw := sortByGE_pairwise geB' (fun x => realSimAux b x.1.1 x.1.2)
          (fun x => x.2.1) hge scoredIdx hidx
        have hkey : ∀ x ∈ lIdx,
            x.1 = (dot q x.2.2.embedding, normSq x.2.2.embedding) := by
          intro x hx
          have hx' : x ∈ scoredIdx := (sortByGE_perm geB' scoredIdx).subset hx
          rw [hscored] at hx'
          rcases List.mem_map.mp hx' with ⟨p, _, rfl⟩
          simp [hgdef]
        refine List.pairwise_map.mpr ?_
        refine hpw.imp_of_mem ?_
        intro u v hu hv huv
        dsimp only at huv
        have hku := hkey u hu
        have hkv := hkey v hv
        have hsu : realSimAux b u.1.1 u.1.2 = realSim q u.2.2.embedding := by
          rw [hku]; rfl
        have hsv : realSimAux b v.1.1 v.1.2 = realSim q v.2.2.embedding := by
          rw [hkv]; rfl
        rw [hsu, hsv] at huv
        exact huv
      · have hscored_f : scoredIdx.map f = mem.long_term.map
            (fun it => ((dot q it.embedding, normSq it.embedding), it)) := by
          rw [hscored, List.map_map]
          have : (f ∘ g) = (fun it => ((dot q it.embedding, normSq it.embedding), it)) ∘
              Prod.snd := by
            funext p
            simp [hfdef, hgdef]
          rw [this, ← List.map_map, List.enum_map_snd]
        have hsort : sortByGE geB (mem.long_term.map
            (fun it => ((dot q it.embedding, normSq it.embedding), it))) = lIdx.map f := by
          rw [← hscored_f, hlIdx]
          exact sortByGE_map geB geB' f (fun _ _ => rfl) scoredIdx
        simp only [retrieve_relevant, hemp, if_false]
        rw [← hqdef, ← hbdef, ← hgeB, hsort, ← List.map_take, List.map_map,
          ← List.map_take, List.map_map]
        rfl

lemma sqrt_normSq_pos {v : List ℚ} (h : normSq v ≠ 0) :
    0 < Real.sqrt ((normSq v : ℚ) : ℝ) := by
  have := normSq_nonneg v
  have hpos : 0 < normSq v := lt_of_le_of_ne this (Ne.symm h)
  exact sqrt_cast_pos hpos

/-- C10.  Each similarity score computed by retrieve_relevant divides by the
product of the two norms with no zero-norm guard; under the precondition that
the embedded query and every stored embedding have nonzero (squared) norm,
every denominator is nonzero, and each score times its denominator recovers
the dot product, i.e. the division is genuinely well-defined. -/
theorem c10_no_zero_norm_division (env : Env) (mem : AgentMemory) (query : String)
    (hq : normSq (env.embed query) ≠ 0)
    (he : ∀ it ∈ mem.long_term, normSq it.embedding ≠ 0) :
    ∀ it ∈ mem.long_term,
      Real.sqrt ((normSq (env.embed query) : ℚ) : ℝ) *
          Real.sqrt ((normSq it.embedding : ℚ) : ℝ) ≠ 0 ∧
      realSim (env.embed query) it.embedding *
          (Real.sqrt ((normSq (env.embed query) : ℚ) : ℝ) *
            Real.sqrt ((normSq it.embedding : ℚ) : ℝ)) =
        ((dot (env.embed query) it.embedding : ℚ) : ℝ) := by
  intro it hit
  have hqpos := sqrt_normSq_pos hq
  have hepos := sqrt_normSq_pos (he it hit)
  have hden : Real.sqrt ((normSq (env.embed query) : ℚ) : ℝ) *
      Real.sqrt ((normSq it.embedding : ℚ) : ℝ) ≠ 0 :=
    ne_of_gt (mul_pos hqpos hepos)
  refine ⟨hden, ?_⟩
  unfold realSim realSimAux
  exact div_mul_cancel₀ _ hden

/-- Witness for C10 at a concrete one-item store with unit vectors. -/
theorem c10_no_zero_norm_division_witness :
    normSq (envW.embed "x") ≠ 0 ∧
    (∀ it ∈ memItemW.long_term, normSq it.embedding ≠ 0) ∧
    (Real.sqrt ((normSq (envW.embed "x") : ℚ) : ℝ) *
        Real.sqrt ((normSq itemW.embedding : ℚ) : ℝ) ≠ 0 ∧
      realSim (envW.embed "x") itemW.embedding *
          (Real.sqrt ((normSq (envW.embed "x") : ℚ) : ℝ) *
            Real.sqrt ((normSq itemW.embedding : ℚ) : ℝ)) =
        ((dot (envW.embed "x") itemW.embedding : ℚ) : ℝ)) := by
  have hq : normSq (envW.embed "x") ≠ 0 := by
    norm_num [envW, normSq, dot]
  have he : ∀ it ∈ memItemW.long_term, normSq it.embedding ≠ 0 := by
    intro it hit
    rcases List.mem_singleton.mp hit with rfl
    norm_num [itemW, normSq, dot]
  exact ⟨hq, he, c10_no_zero_norm_division envW memItemW "x" hq he itemW
    (List.mem_singleton.mpr rfl)⟩

/-- C6 counterexample.  The memorize step of a take-essence action records
the string Me: [ACTION] I decided to take 5 essence. Reason: hungry, which
differs from the string the claim specifies, namely
[ACTION] took 5 essence. Reason: hungry. -/
theorem c6_counterexample :
    (node_memorize envW ⟨[], 3, []⟩ respTakeW 1).long_term.map (fun it => it.content) =
      ["Me: [ACTION] I decided to take 5 essence. Reason: hungry"] ∧
    "Me: [ACTION] I decided to take 5 essence. Reason: hungry" ≠
      "[ACTION] took 5 essence. Reason: hungry" := by
  constructor
  · rfl
  · decide

/-- C6 amended.  The memorize step records into the own memory of the acting agent
exactly the string Me: [ACTION] I decided to take {amount} essence.
Reason: {reason} when the outcome carries a tool call (reading the first
one), and exactly Me: {text} when the outcome is a dialogue. -/
theorem c6_memorize_strings (env : Env) (mem : AgentMemory) (t : ℕ)
    (tc : ToolCall) (rest : List ToolCall) (c c2 : String) :
    node_memorize env mem ⟨tc :: rest, c⟩ t =
      add_interaction env mem
        ("Me: [ACTION] I decided to take " ++ toString (tc.amount?.getD 0) ++
          " essence. Reason: " ++ tc.reason?.getD "") t ∧
    node_memorize env mem ⟨[], c2⟩ t =
      add_interaction env mem ("Me: " ++ c2) t := by
  constructor
  · rfl
  · rfl

/-- C3.  get_next_message realises the poll contract exactly: a queued message
is popped with strict precedence; otherwise, with the simulation started and
the round fully finished, simulation_ended or turn_over is derived on demand
from comparing the round number with max_rounds, the queue being left
untouched; otherwise none. -/
theorem c3_poll_contract (st : EngineState) : get_next_message st = pollSpec st := by
  unfold get_next_message pollSpec
  cases h : st.message_queue with
  | cons m rest => rfl
  | nil =>
    unfold simulationStarted roundFullyFinished
    by_cases hc : st.is_running = true ∧ 0 < st.round_num ∧ st.pending_agents = []
    · rcases hc with ⟨h1, h2, h3⟩
      simp [h1, h2, h3, h]
    · rw [if_neg, if_neg]
      · intro hcontra
        exact hc ⟨hcontra.1.1, hcontra.1.2, hcontra.2⟩
      · intro hcontra
        exact hc ⟨hcontra.1, hcontra.2.1, hcontra.2.2.1⟩

lemma broadcast_fold_notmem (env : Env) (s m : String) (t : ℕ) (l : List Agent)
    (mems : String → AgentMemory) (aid : String)
    (h : aid ∉ l.map (fun x => x.agent_id)) :
    (l.foldl
      (fun mems ag =>
        if ag.name ≠ s then
          updateFn mems ag.agent_id (listen env (mems ag.agent_id) s m t)
        else mems)
      mems) aid = mems aid := by
  induction l generalizing mems with
  | nil => rfl
  | cons b bs ih =>
    rw [List.map_cons, List.mem_cons, not_or] at h
    rcases h with ⟨hb, hbs⟩
    rw [List.foldl_cons, ih _ hbs]
    by_cases hn : b.name ≠ s
    · rw [if_pos hn]
      unfold updateFn
      rw [if_neg hb]
    · rw [if_neg hn]

lemma broadcast_fold_mem (env : Env) (s m : String) (t : ℕ) (l : List Agent)
    (mems : String → AgentMemory) (a : Agent) (ha : a ∈ l)
    (hnodup : (l.map (fun x => x.agent_id)).Nodup) :
    (l.foldl
      (fun mems ag =>
        if ag.name ≠ s then
          updateFn mems ag.agent_id (listen env (mems ag.agent_id) s m t)
        else mems)
      mems) a.agent_id =
      if a.name = s then mems a.agent_id
      else listen env (mems a.agent_id) s m t := by
  induction l generalizing mems with
  | nil => cases ha
  | cons b bs ih =>
    rw [List.map_cons] at hnodup
    rcases List.nodup_cons.mp hnodup with ⟨hbnot, hbsnodup⟩
    rw [List.foldl_cons]
    rcases List.mem_cons.mp ha with rfl | hmem
    · rw [broadcast_fold_notmem env s m t bs _ _ hbnot]
      by_cases hn : a.name = s
      · have hnn : ¬ a.name ≠ s := by simpa using hn
        rw [if_neg hnn, if_pos hn]
      · have hne : a.name ≠ s := hn
        rw [if_pos hne]
        unfold updateFn
        rw [if_pos rfl, if_neg hn]
    · have haid : a.agent_id ≠ b.agent_id := by
        intro hc
        exact hbnot (hc ▸ List.mem_map.mpr ⟨a, hmem, rfl⟩)
      have hmems1 : ∀ mems1 : String → AgentMemory,
          (if b.name ≠ s then
            updateFn mems1 b.agent_id (listen env (mems1 b.agent_id) s m t)
          else mems1) a.agent_id = mems1 a.agent_id := by
        intro mems1
        by_cases hn : b.name ≠ s
        · rw [if_pos hn]
          unfold updateFn
          rw [if_neg haid]
        · rw [if_neg hn]
      rw [ih _ hmem hbsnodup, hmems1]

/-- C9.  broadcast appends exactly one message to the polling queue and makes
exactly the agents whose display name differs from the sender listen; any
agent whose display name equals the sender name, including the sender itself,
keeps its memory unchanged, because the exclusion is keyed on the display
name and not on the agent id. -/
theorem c9_broadcast_name_keyed (env : Env) (s m : String) (st : EngineState)
    (hnodup : (st.agents.map (fun x => x.agent_id)).Nodup) :
    (broadcast env s m st).message_queue = st.message_queue ++ [⟨s, m, "text"⟩] ∧
    ∀ a ∈ st.agents,
      (broadcast env s m st).memories a.agent_id =
        if a.name = s then st.memories a.agent_id
        else listen env (st.memories a.agent_id) s m st.current_time := by
  constructor
  · rfl
  · intro a ha
    exact broadcast_fold_mem env s m st.current_time st.agents st.memories a ha hnodup

/-- Witness for C9: Alice broadcasts to the two-agent roster; her own memory
is untouched while Bruno listens. -/
theorem c9_broadcast_name_keyed_witness :
    (stW.agents.map (fun x => x.agent_id)).Nodup ∧
    (broadcast envW "Alice" "yo" stW).message_queue =
      stW.message_queue ++ [⟨"Alice", "yo", "text"⟩] ∧
    (broadcast envW "Alice" "yo" stW).memories "a" = stW.memories "a" ∧
    (broadcast envW "Alice" "yo" stW).memories "b" =
      listen envW (stW.memories "b") "Alice" "yo" stW.current_time := by
  have hnodup : (stW.agents.map (fun x => x.agent_id)).Nodup := by decide
  have h := c9_broadcast_name_keyed envW "Alice" "yo" stW hnodup
  refine ⟨hnodup, h.1, ?_, ?_⟩
  · have ha := h.2 agentA (by decide)
    simpa [agentA] using ha
  · have hb := h.2 agentB (by decide)
    simpa [agentB] using hb

lemma filterMap_filter_isSome {α β : Type} (f : α → Option β) (l : List α) :
    (l.filter (fun x => (f x).isSome)).filterMap f = l.filterMap f := by
  induction l with
  | nil => rfl
  | cons x xs ih =>
    cases hfx : f x with
    | none => simp [List.filter_cons, List.filterMap_cons, hfx, ih]
    | some b => simp [List.filter_cons, List.filterMap_cons, hfx, ih]

/-- C7 counterexample.  Selecting with a roster containing only the id a and
the request list [a, zzz] (zzz unknown) raises no error and does change the
simulation state: the engine starts running, the known subset is initialized
and the init message is queued.  The claim that a StateError is reported and
the state left unchanged is false. -/
theorem c7_counterexample :
    (reset_st cfgW).is_running = false ∧
    (select_agents cfgW ["a", "zzz"] (reset_st cfgW)).is_running = true ∧
    (select_agents cfgW ["a", "zzz"] (reset_st cfgW)).agents = [agentA] ∧
    (select_agents cfgW ["a", "zzz"] (reset_st cfgW)).message_queue ≠
      (reset_st cfgW).message_queue := by
  refine ⟨rfl, rfl, by decide, by decide⟩

/-- C7 amended.  select with unknown agent ids reports no error and does not
leave the state unchanged: unknown ids are silently ignored (selecting any id
sequence equals selecting its known sub-sequence), the simulation is marked
running, and the round counter is reset. -/
theorem c7_select_ignores_unknown (cfg : Config) (ids : List String) (st : EngineState) :
    select_agents cfg ids st =
      select_agents cfg
        (ids.filter (fun i => (cfg.agents.find? (fun a => a.id = i)).isSome)) st ∧
    (select_agents cfg ids st).is_running = true ∧
    (select_agents cfg ids st).round_num = 0 := by
  refine ⟨?_, rfl, rfl⟩
  unfold select_agents
  have hbridge : ids.filter (fun i => (cfg.agents.find? (fun a => a.id = i)).isSome) =
      ids.filter (fun i =>
        ((cfg.agents.find? (fun a => a.id = i)).map
          (fun a => (⟨a.id, a.name, a.personality⟩ : Agent))).isSome) := by
    apply List.filter_congr
    intro i _
    cases cfg.agents.find? (fun a => a.id = i) <;> rfl
  rw [hbridge, filterMap_filter_isSome]

/-- C1 counterexample.  With the pool at 50, a take_essence request for the
negative amount -5 is processed with actual = min(-5, 50) = -5: the pool
grows to 55 and the agent vitality drops from 70 to 65, contradicting the
claim that a request with amount at most 0 takes exactly 0 and leaves pool
and vitality unchanged. -/
theorem c1_counterexample :
    stW.global_resource = 50 ∧
    stW.agent_resources "a" = 70 ∧
    (process_take_action envW agentA respTakeNegW stW).1 = true ∧
    (process_take_action envW agentA respTakeNegW stW).2.global_resource = 55 ∧
    (process_take_action envW agentA respTakeNegW stW).2.agent_resources "a" = 65 := by
  refine ⟨by decide, by decide, rfl, by decide, by decide⟩

/-- C1 amended.  The take operation computes actual = min(requested,
global_resource) with no lower clamp: the pool decreases by actual and the
agent vitality increases by actual (their sum is conserved), actual never
exceeds the request, a request of exactly 0 takes 0 and leaves pool and
vitality unchanged, but a negative request takes a negative amount. -/
theorem c1_take_min_no_clamp (env : Env) (st : EngineState) (agent : Agent)
    (r : Response) (tc : ToolCall) (amount : ℤ)
    (hfind : r.tool_calls.find? (fun t => t.name = "take_essence") = some tc)
    (hamt : tc.amount? = some amount) :
    (process_take_action env agent r st).1 = true ∧
    (process_take_action env agent r st).2.global_resource =
      st.global_resource - min amount st.global_resource ∧
    (process_take_action env agent r st).2.agent_resources agent.agent_id =
      st.agent_resources agent.agent_id + min amount st.global_resource ∧
    (process_take_action env agent r st).2.global_resource +
        (process_take_action env agent r st).2.agent_resources agent.agent_id =
      st.global_resource + st.agent_resources agent.agent_id ∧
    min amount st.global_resource ≤ amount ∧
    (amount = 0 → 0 ≤ st.global_resource →
      (process_take_action env agent r st).2.global_resource = st.global_resource ∧
      (process_take_action env agent r st).2.agent_resources agent.agent_id =
        st.agent_resources agent.agent_id) := by
  have hbody : process_take_action env agent r st =
      (true,
        broadcast env "SYSTEM"
          (let actual := min amount st.global_resource
           let reason := tc.reason?.getD ""
           let msg0 := agent.name ++ " took " ++ toString actual ++
             " Essence. (Global Remaining: " ++ toString (st.global_resource - actual) ++ ")"
           if reason ≠ "" then msg0 ++ "\n   Reason: \x22" ++ reason ++ "\x22" else msg0)
          { st with
            global_resource := st.global_resource - min amount st.global_resource
            agent_resources := updateFn st.agent_resources agent.agent_id
              (st.agent_resources agent.agent_id + min amount st.global_resource) }) := by
    unfold process_take_action
    rw [hfind]
    dsimp only
    rw [hamt]
    rfl
  rw [hbody]
  unfold broadcast push_message
  refine ⟨rfl, rfl, ?_, ?_, min_le_left _ _, ?_⟩
  · show updateFn st.agent_resources agent.agent_id
      (st.agent_resources agent.agent_id + min amount st.global_resource) agent.agent_id = _
    unfold updateFn
    rw [if_pos rfl]
  · show st.global_resource - min amount st.global_resource +
      updateFn st.agent_resources agent.agent_id
        (st.agent_resources agent.agent_id + min amount st.global_resource) agent.agent_id = _
    unfold updateFn
    rw [if_pos rfl]
    ring
  · intro h0 hpos
    subst h0
    have hmin : min (0 : ℤ) st.global_resource = 0 := min_eq_left hpos
    constructor
    · show st.global_resource - min 0 st.global_resource = st.global_resource
      rw [hmin, sub_zero]
    · show updateFn st.agent_resources agent.agent_id
        (st.agent_resources agent.agent_id + min 0 st.global_resource) agent.agent_id = _
      unfold updateFn
      rw [if_pos rfl, hmin, add_zero]

/-- Witness for C1 at a concrete take of five essence from the pool of 50. -/
theorem c1_take_min_no_clamp_witness :
    respTakeW.tool_calls.find? (fun t => t.name = "take_essence") =
      some (⟨"take_essence", some 5, some "hungry"⟩ : ToolCall) ∧
    (⟨"take_essence", some 5, some "hungry"⟩ : ToolCall).amount? = some 5 ∧
    (process_take_action envW agentA respTakeW stW).1 = true ∧
    (process_take_action envW agentA respTakeW stW).2.global_resource =
      stW.global_resource - min 5 stW.global_resource := by
  have h := c1_take_min_no_clamp envW stW agentA respTakeW
    (⟨"take_essence", some 5, some "hungry"⟩ : ToolCall) 5 rfl rfl
  exact ⟨rfl, rfl, h.1, h.2.1⟩

/-- C2 counterexample.  With Alice alone in the pending queue and a failing
generation service, the round advance aborts surfacing the service error, but
the pending queue is left empty rather than being restored to [Alice]: the
failing agent has already been popped and is not put back, so a retry skips
it.  The claim that the queue is left exactly as before the pop is false. -/
theorem c2_counterexample :
    stPendW.pending_agents = [agentA] ∧
    (generate_round envErrW stPendW).1 =
      .raised (.service "generation service failed") ∧
    (generate_round envErrW stPendW).2.pending_agents = [] := by
  refine ⟨rfl, rfl, rfl⟩

/-- C2 amended.  When the generation service fails for the popped agent, the
round advance aborts surfacing the error, and the state keeps the mutations
already performed before the failure: the failing agent has been popped from
the pending queue (so a retry proceeds with the next agent, not the same
one), the clock and the turn counter are already advanced, while the message
queue, memories, pool and vitalities are untouched. -/
theorem c2_failed_turn_pops_agent (env : Env) (st : EngineState) (a : Agent)
    (rest : List Agent) (e : String)
    (hrun : st.is_running = true)
    (hpend : st.pending_agents = a :: rest)
    (hresp : env.respond a (st.memories a.agent_id) (st.current_time + 1)
        st.global_resource (st.agent_resources a.agent_id) = .error e) :
    (generate_round env st).1 = .raised (.service e) ∧
    (generate_round env st).2.pending_agents = rest ∧
    (generate_round env st).2.current_time = st.current_time + 1 ∧
    (generate_round env st).2.turns_in_round = st.turns_in_round + 1 ∧
    (generate_round env st).2.message_queue = st.message_queue ∧
    (generate_round env st).2.memories = st.memories ∧
    (generate_round env st).2.global_resource = st.global_resource ∧
    (generate_round env st).2.agent_resources = st.agent_resources := by
  have hpne : st.pending_agents ≠ [] := by
    rw [hpend]
    exact List.cons_ne_nil a rest
  have hstep : step_once env st = (some (.service e),
      { st with
        pending_agents := rest
        current_time := st.current_time + 1
        turns_in_round := st.turns_in_round + 1 }) := by
    unfold step_once
    rw [hpend]
    dsimp only
    rw [hresp]
  have hgen : generate_round env st = (.raised (.service e),
      { st with
        pending_agents := rest
        current_time := st.current_time + 1
        turns_in_round := st.turns_in_round + 1 }) := by
    unfold generate_round
    rw [if_neg (by rw [hrun]; simp)]
    rw [if_neg (by intro hc; exact hpne hc.1)]
    dsimp only
    rw [if_neg hpne]
    unfold round_loop
    rw [if_neg hpne]
    rw [hstep]
  rw [hgen]
  exact ⟨rfl, rfl, rfl, rfl, rfl, rfl, rfl, rfl⟩

/-- Witness for C2 with the always-failing service and Alice pending. -/
theorem c2_failed_turn_pops_agent_witness :
    stPendW.is_running = true ∧
    stPendW.pending_agents = agentA :: [] ∧
    envErrW.respond agentA (stPendW.memories agentA.agent_id) (stPendW.current_time + 1)
        stPendW.global_resource (stPendW.agent_resources agentA.agent_id) =
      .error "generation service failed" ∧
    (generate_round envErrW stPendW).1 = .raised (.service "generation service failed") ∧
    (generate_round envErrW stPendW).2.pending_agents = [] := by
  have h := c2_failed_turn_pops_agent envErrW stPendW agentA [] "generation service failed"
    rfl rfl rfl
  exact ⟨rfl, rfl, rfl, h.1, h.2.1⟩

@[simp] lemma broadcast_turns (env : Env) (s m : String) (st : EngineState) :
    (broadcast env s m st).turns_in_round = st.turns_in_round := rfl

@[simp] lemma broadcast_maxDiscussion (env : Env) (s m : String) (st : EngineState) :
    (broadcast env s m st).max_discussion_turns = st.max_discussion_turns := rfl

@[simp] lemma broadcast_pending (env : Env) (s m : String) (st : EngineState) :
    (broadcast env s m st).pending_agents = st.pending_agents := rfl

@[simp] lemma broadcast_agents (env : Env) (s m : String) (st : EngineState) :
    (broadcast env s m st).agents = st.agents := rfl

@[simp] lemma broadcast_round (env : Env) (s m : String) (st : EngineState) :
    (broadcast env s m st).round_num = st.round_num := rfl

@[simp] lemma broadcast_resources (env : Env) (s m : String) (st : EngineState) :
    (broadcast env s m st).agent_resources = st.agent_resources := rfl

@[simp] lemma broadcast_fadedLog (env : Env) (s m : String) (st : EngineState) :
    (broadcast env s m st).faded_log = st.faded_log := rfl

@[simp] lemma broadcast_isRunning (env : Env) (s m : String) (st : EngineState) :
    (broadcast env s m st).is_running = st.is_running := rfl

@[simp] lemma broadcast_maxRounds (env : Env) (s m : String) (st : EngineState) :
    (broadcast env s m st).max_rounds = st.max_rounds := rfl

@[simp] lemma broadcast_decay (env : Env) (s m : String) (st : EngineState) :
    (broadcast env s m st).agent_decay = st.agent_decay := rfl

@[simp] lemma broadcast_global (env : Env) (s m : String) (st : EngineState) :
    (broadcast env s m st).global_resource = st.global_resource := rfl

lemma process_take_preserves (env : Env) (a : Agent) (r : Response) (st : EngineState) :
    (process_take_action env a r st).2.turns_in_round = st.turns_in_round ∧
    (process_take_action env a r st).2.max_discussion_turns = st.max_discussion_turns ∧
    (process_take_action env a r st).2.pending_agents = st.pending_agents ∧
    (process_take_action env a r st).2.agents = st.agents ∧
    (process_take_action env a r st).2.round_num = st.round_num ∧
    (process_take_action env a r st).2.is_running = st.is_running ∧
    (process_take_action env a r st).2.faded_log = st.faded_log ∧
    (process_take_action env a r st).2.max_rounds = st.max_rounds := by
  unfold process_take_action
  cases r.tool_calls.find? (fun tc => tc.name = "take_essence") with
  | none => exact ⟨rfl, rfl, rfl, rfl, rfl, rfl, rfl, rfl⟩
  | some tc => exact ⟨rfl, rfl, rfl, rfl, rfl, rfl, rfl, rfl⟩

lemma process_take_res_other (env : Env) (a : Agent) (r : Response) (st : EngineState)
    (x : String) (hx : x ≠ a.agent_id) :
    (process_take_action env a r st).2.agent_resources x = st.agent_resources x := by
  unfold process_take_action
  cases r.tool_calls.find? (fun tc => tc.name = "take_essence") with
  | none => rfl
  | some tc =>
    show updateFn st.agent_resources a.agent_id _ x = _
    unfold updateFn
    rw [if_neg hx]

/-- On a successful turn, step_once advances the clock and the turn counter by
one, preserves the cap and, once the cap is reached, forcibly clears the
pending queue. -/
lemma step_once_shape (env : Env) (st : EngineState) (a : Agent) (rest : List Agent)
    (r : Response)
    (hpend : st.pending_agents = a :: rest)
    (hresp : env.respond a (st.memories a.agent_id) (st.current_time + 1)
        st.global_resource (st.agent_resources a.agent_id) = .ok r) :
    (step_once env st).1 = none ∧
    (step_once env st).2.turns_in_round = st.turns_in_round + 1 ∧
    (step_once env st).2.max_discussion_turns = st.max_discussion_turns ∧
    (st.max_discussion_turns ≤ st.turns_in_round + 1 →
      (step_once env st).2.pending_agents = []) := by
  have hfinal : ∀ st4 : EngineState,
      st4.turns_in_round = st.turns_in_round + 1 →
      st4.max_discussion_turns = st.max_discussion_turns →
      ((if st4.max_discussion_turns ≤ st4.turns_in_round then
          (none, { push_message st4 "SYSTEM" "Discussion limit reached. Round ending." "text"
            with pending_agents := ([] : List Agent) })
        else (none, st4)) : Option RoundErr × EngineState).1 = none ∧
      ((if st4.max_discussion_turns ≤ st4.turns_in_round then
          (none, { push_message st4 "SYSTEM" "Discussion limit reached. Round ending." "text"
            with pending_agents := ([] : List Agent) })
        else (none, st4)) : Option RoundErr × EngineState).2.turns_in_round =
          st.turns_in_round + 1 ∧
      ((if st4.max_discussion_turns ≤ st4.turns_in_round then
          (none, { push_message st4 "SYSTEM" "Discussion limit reached. Round ending." "text"
            with pending_agents := ([] : List Agent) })
        else (none, st4)) : Option RoundErr × EngineState).2.max_discussion_turns =
          st.max_discussion_turns ∧
      (st.max_discussion_turns ≤ st.turns_in_round + 1 →
        ((if st4.max_discussion_turns ≤ st4.turns_in_round then
            (none, { push_message st4 "SYSTEM" "Discussion limit reached. Round ending." "text"
              with pending_agents := ([] : List Agent) })
          else (none, st4)) : Option RoundErr × EngineState).2.pending_agents = []) := by
    intro st4 h1 h2
    by_cases hcap : st.max_discussion_turns ≤ st.turns_in_round + 1
    · rw [if_pos (by rw [h1, h2]; exact hcap)]
      exact ⟨rfl, h1, h2, fun _ => rfl⟩
    · rw [if_neg (by rw [h1, h2]; exact hcap)]
      exact ⟨rfl, h1, h2, fun hcc => absurd hcc hcap⟩
  unfold step_once
  rw [hpend]
  dsimp only
  rw [hresp]
  dsimp only
  set st1 : EngineState := { st with
    pending_agents := rest
    current_time := st.current_time + 1
    turns_in_round := st.turns_in_round + 1 } with hst1
  set st2 : EngineState := { st1 with
    memories := updateFn st1.memories a.agent_id
      (node_memorize env (st1.memories a.agent_id) r st1.current_time) } with hst2
  have hp := process_take_preserves env a r st2
  by_cases ht : (process_take_action env a r st2).1
  · rw [if_pos ht]
    exact hfinal _ hp.1 hp.2.1
  · rw [if_neg ht]
    by_cases hc : r.content ≠ ""
    · rw [if_pos hc]
      exact hfinal _ hp.1 hp.2.1
    · rw [if_neg hc]
      exact hfinal _ hp.1 hp.2.1

lemma decayStep_preserves (env : Env) (acc : EngineState × List Agent) (ag : Agent) :
    (decayStep env acc ag).1.turns_in_round = acc.1.turns_in_round ∧
    (decayStep env acc ag).1.max_discussion_turns = acc.1.max_discussion_turns ∧
    (decayStep env acc ag).1.pending_agents = acc.1.pending_agents ∧
    (decayStep env acc ag).1.agents = acc.1.agents ∧
    (decayStep env acc ag).1.round_num = acc.1.round_num ∧
    (decayStep env acc ag).1.agent_decay = acc.1.agent_decay ∧
    (decayStep env acc ag).1.is_running = acc.1.is_running ∧
    (decayStep env acc ag).1.max_rounds = acc.1.max_rounds := by
  unfold decayStep
  dsimp only
  split_ifs <;> exact ⟨rfl, rfl, rfl, rfl, rfl, rfl, rfl, rfl⟩

lemma decay_fold_preserves (env : Env) (l : List Agent) (acc : EngineState × List Agent) :
    (l.foldl (decayStep env) acc).1.turns_in_round = acc.1.turns_in_round ∧
    (l.foldl (decayStep env) acc).1.max_discussion_turns = acc.1.max_discussion_turns ∧
    (l.foldl (decayStep env) acc).1.pending_agents = acc.1.pending_agents ∧
    (l.foldl (decayStep env) acc).1.agents = acc.1.agents ∧
    (l.foldl (decayStep env) acc).1.round_num = acc.1.round_num ∧
    (l.foldl (decayStep env) acc).1.agent_decay = acc.1.agent_decay ∧
    (l.foldl (decayStep env) acc).1.is_running = acc.1.is_running ∧
    (l.foldl (decayStep env) acc).1.max_rounds = acc.1.max_rounds := by
  induction l generalizing acc with
  | nil => exact ⟨rfl, rfl, rfl, rfl, rfl, rfl, rfl, rfl⟩
  | cons b bs ih =>
    rw [List.foldl_cons]
    have hd := decayStep_preserves env acc b
    have hi := ih (decayStep env acc b)
    exact ⟨hi.1.trans hd.1, hi.2.1.trans hd.2.1, hi.2.2.1.trans hd.2.2.1,
      hi.2.2.2.1.trans hd.2.2.2.1, hi.2.2.2.2.1.trans hd.2.2.2.2.1,
      hi.2.2.2.2.2.1.trans hd.2.2.2.2.2.1,
      hi.2.2.2.2.2.2.1.trans hd.2.2.2.2.2.2.1,
      hi.2.2.2.2.2.2.2.trans hd.2.2.2.2.2.2.2⟩

@[simp] lemma decay_fold_turns (env : Env) (l : List Agent) (acc : EngineState × List Agent) :
    (l.foldl (decayStep env) acc).1.turns_in_round = acc.1.turns_in_round :=
  (decay_fold_preserves env l acc).1

@[simp] lemma decay_fold_maxDiscussion (env : Env) (l : List Agent)
    (acc : EngineState × List Agent) :
    (l.foldl (decayStep env) acc).1.max_discussion_turns = acc.1.max_discussion_turns :=
  (decay_fold_preserves env l acc).2.1

@[simp] lemma decay_fold_pending (env : Env) (l : List Agent)
    (acc : EngineState × List Agent) :
    (l.foldl (decayStep env) acc).1.pending_agents = acc.1.pending_agents :=
  (decay_fold_preserves env l acc).2.2.1

@[simp] lemma decay_fold_agents (env : Env) (l : List Agent)
    (acc : EngineState × List Agent) :
    (l.foldl (decayStep env) acc).1.agents = acc.1.agents :=
  (decay_fold_preserves env l acc).2.2.2.1

@[simp] lemma decay_fold_round (env : Env) (l : List Agent)
    (acc : EngineState × List Agent) :
    (l.foldl (decayStep env) acc).1.round_num = acc.1.round_num :=
  (decay_fold_preserves env l acc).2.2.2.2.1

@[simp] lemma decay_fold_decayAmount (env : Env) (l : List Agent)
    (acc : EngineState × List Agent) :
    (l.foldl (decayStep env) acc).1.agent_decay = acc.1.agent_decay :=
  (decay_fold_preserves env l acc).2.2.2.2.2.1

@[simp] lemma decay_fold_isRunning (env : Env) (l : List Agent)
    (acc : EngineState × List Agent) :
    (l.foldl (decayStep env) acc).1.is_running = acc.1.is_running :=
  (decay_fold_preserves env l acc).2.2.2.2.2.2.1

@[simp] lemma decay_fold_maxRounds (env : Env) (l : List Agent)
    (acc : EngineState × List Agent) :
    (l.foldl (decayStep env) acc).1.max_rounds = acc.1.max_rounds :=
  (decay_fold_preserves env l acc).2.2.2.2.2.2.2

lemma start_new_round_shape (env : Env) (st : EngineState) :
    (start_new_round env st).turns_in_round = 0 ∧
    (start_new_round env st).max_discussion_turns = st.max_discussion_turns ∧
    (start_new_round env st).round_num = st.round_num + 1 ∧
    (start_new_round env st).agents = st.agents := by
  unfold start_new_round
  dsimp only
  split_ifs with hempty
  · exact ⟨by simp [push_message], by simp [push_message], by simp [push_message],
      by simp [push_message]⟩
  · exact ⟨by simp [push_message], by simp [push_message], by simp [push_message],
      by simp [push_message]⟩

lemma get_next_message_preserves (st : EngineState) :
    (get_next_message st).2.turns_in_round = st.turns_in_round ∧
    (get_next_message st).2.max_discussion_turns = st.max_discussion_turns ∧
    (get_next_message st).2.pending_agents = st.pending_agents ∧
    (get_next_message st).2.agents = st.agents ∧
    (get_next_message st).2.round_num = st.round_num ∧
    (get_next_message st).2.agent_resources = st.agent_resources ∧
    (get_next_message st).2.faded_log = st.faded_log ∧
    (get_next_message st).2.is_running = st.is_running := by
  unfold get_next_message
  cases st.message_queue with
  | nil =>
    dsimp only
    split_ifs with h1 h2 <;> exact ⟨rfl, rfl, rfl, rfl, rfl, rfl, rfl, rfl⟩
  | cons m rest => exact ⟨rfl, rfl, rfl, rfl, rfl, rfl, rfl, rfl⟩

lemma update_settings_preserves (ns : NewSettings) (st : EngineState) :
    (update_settings ns st).turns_in_round = st.turns_in_round ∧
    (update_settings ns st).max_discussion_turns = st.max_discussion_turns ∧
    (update_settings ns st).pending_agents = st.pending_agents ∧
    (update_settings ns st).agents = st.agents ∧
    (update_settings ns st).round_num = st.round_num ∧
    (update_settings ns st).agent_resources = st.agent_resources ∧
    (update_settings ns st).faded_log = st.faded_log ∧
    (update_settings ns st).is_running = st.is_running := by
  unfold update_settings
  cases ns.global_initial <;> cases ns.max_rounds <;> cases ns.global_replenish <;>
    cases ns.agent_decay <;> exact ⟨rfl, rfl, rfl, rfl, rfl, rfl, rfl, rfl⟩

lemma inv4_start (env : Env) (st : EngineState) : Inv4 (start_new_round env st) := by
  have h := start_new_round_shape env st
  constructor
  · rw [h.1]
    exact Nat.zero_le _
  · intro _
    right
    exact h.1

lemma inv4_step (env : Env) (st : EngineState)
    (hok : ∀ a mem t g p, ∃ r, env.respond a mem t g p = Except.ok r)
    (hpend : st.pending_agents ≠ []) (h : Inv4 st) : Inv4 (step_once env st).2 := by
  rcases hlist : st.pending_agents with _ | ⟨a, rest⟩
  · exact absurd hlist hpend
  · rcases hok a (st.memories a.agent_id) (st.current_time + 1) st.global_resource
      (st.agent_resources a.agent_id) with ⟨r, hr⟩
    have hs := step_once_shape env st a rest r hlist hr
    constructor
    · rw [hs.2.1, hs.2.2.1]
      rcases h.2 (by rw [hlist]; exact List.cons_ne_nil a rest) with hlt | hz
      · exact le_trans (Nat.succ_le_of_lt hlt) (le_max_right _ _)
      · rw [hz]
        exact le_max_left _ _
    · intro hpne
      by_cases hcap : st.max_discussion_turns ≤ st.turns_in_round + 1
      · exact absurd (hs.2.2.2 hcap) hpne
      · left
        rw [hs.2.1, hs.2.2.1]
        exact lt_of_not_ge hcap

lemma inv4_poll (st : EngineState) (h : Inv4 st) : Inv4 (get_next_message st).2 := by
  have hp := get_next_message_preserves st
  constructor
  · rw [hp.1, hp.2.1]
    exact h.1
  · rw [hp.1, hp.2.1, hp.2.2.1]
    exact h.2

lemma inv4_settings (ns : NewSettings) (st : EngineState) (h : Inv4 st) :
    Inv4 (update_settings ns st) := by
  have hp := update_settings_preserves ns st
  constructor
  · rw [hp.1, hp.2.1]
    exact h.1
  · rw [hp.1, hp.2.1, hp.2.2.1]
    exact h.2

lemma inv4_preserved (env : Env)
    (hok : ∀ a mem t g p, ∃ r, env.respond a mem t g p = Except.ok r)
    {st st' : EngineState} (hstep : FineStep env st st') (h : Inv4 st) : Inv4 st' := by
  cases hstep with
  | startRound h1 h2 h3 => exact inv4_start env st
  | stepTurn hne => exact inv4_step env st hok hne h
  | poll => exact inv4_poll st h
  | settings ns => exact inv4_settings ns st h

lemma inv4_init (cfg : Config) (ids : List String) :
    Inv4 (select_agents cfg ids (reset_st cfg)) := by
  constructor
  · show (0 : ℕ) ≤ _
    exact Nat.zero_le _
  · intro hpne
    exact absurd rfl hpne

/-- C4 counterexample.  Under a configuration with max_discussion_turns = 0, a
reachable state (one round started, one turn stepped) has turns_in_round = 1,
exceeding the cap: with a cap of zero a turn is still performed, because the
code checks the cap only after stepping.  The claim that turns_taken never
exceeds max_discussion_turns for every configured cap (including 0) is
false. -/
theorem c4_counterexample :
    Reach envW st0Z st1Z ∧
    st1Z.max_discussion_turns < st1Z.turns_in_round := by
  constructor
  · have s1 : FineStep envW st0Z (start_new_round envW st0Z) :=
      FineStep.startRound rfl rfl (by decide)
    have s2 : FineStep envW (start_new_round envW st0Z) st1Z :=
      FineStep.stepTurn (by decide)
    exact Relation.ReflTransGen.head s1 (Relation.ReflTransGen.single s2)
  · decide

/-- C4 amended.  In failure-free executions (the generation service never
raises), every state reachable from a freshly selected simulation keeps
turns_taken at or below max(1, max_discussion_turns): the cap is respected
verbatim whenever max_discussion_turns is at least 1, while with a cap of 0 a
single turn is still taken because the code checks the cap only after
performing a step; reaching the cap forcibly clears the pending queue. -/
theorem c4_turn_cap (env : Env)
    (hok : ∀ a mem t g p, ∃ r, env.respond a mem t g p = Except.ok r)
    (cfg : Config) (ids : List String) (st' : EngineState)
    (hreach : Reach env (select_agents cfg ids (reset_st cfg)) st') :
    st'.turns_in_round ≤ max 1 st'.max_discussion_turns := by
  have hinv : Inv4 st' := by
    induction hreach with
    | refl => exact inv4_init cfg ids
    | tail hsteps hstep ih => exact inv4_preserved env hok hstep ih
  exact hinv.1

/-- Witness for C4 with the benign environment at the freshly selected
zero-cap state. -/
theorem c4_turn_cap_witness :
    st0Z.turns_in_round ≤ max 1 st0Z.max_discussion_turns :=
  c4_turn_cap envW (fun _ _ _ _ _ => ⟨⟨[], "hi"⟩, rfl⟩) cfgZeroW ["a"] st0Z
    Relation.ReflTransGen.refl

lemma start_new_round_eq (env : Env) (st : EngineState) :
    start_new_round env st =
      if (decayResult env st).2 = [] then
        { push_message (decayResult env st).1 "SYSTEM"
            "All agents have faded. Simulation Over." "simulation_ended"
          with is_running := false }
      else
        { (decayResult env st).1 with
          pending_agents := env.shuffleRound (decayResult env st).1.round_num
            (decayResult env st).2 } := rfl

@[simp] lemma preDecay_resources (st : EngineState) :
    (preDecayState st).agent_resources = st.agent_resources := rfl

@[simp] lemma preDecay_fadedLog (st : EngineState) :
    (preDecayState st).faded_log = st.faded_log := rfl

@[simp] lemma preDecay_agents (st : EngineState) :
    (preDecayState st).agents = st.agents := rfl

@[simp] lemma preDecay_pending (st : EngineState) :
    (preDecayState st).pending_agents = st.pending_agents := rfl

@[simp] lemma pushMessage_fadedLog (st : EngineState) (s c t : String) :
    (push_message st s c t).faded_log = st.faded_log := rfl

@[simp] lemma pushMessage_resources (st : EngineState) (s c t : String) :
    (push_message st s c t).agent_resources = st.agent_resources := rfl

@[simp] lemma pushMessage_pending (st : EngineState) (s c t : String) :
    (push_message st s c t).pending_agents = st.pending_agents := rfl

lemma decay_fold_aid_dead (env : Env) (aid : String) (l : List Agent)
    (acc : EngineState × List Agent) (h : acc.1.agent_resources aid ≤ 0) :
    (l.foldl (decayStep env) acc).1.agent_resources aid = acc.1.agent_resources aid ∧
    (l.foldl (decayStep env) acc).1.faded_log.count aid = acc.1.faded_log.count aid ∧
    (aid ∉ acc.2.map (fun x => x.agent_id) →
      aid ∉ (l.foldl (decayStep env) acc).2.map (fun x => x.agent_id)) := by
  induction l generalizing acc with
  | nil => exact ⟨rfl, rfl, fun hm => hm⟩
  | cons b bs ih =>
    rw [List.foldl_cons]
    have hb : (decayStep env acc b).1.agent_resources aid = acc.1.agent_resources aid ∧
        (decayStep env acc b).1.faded_log.count aid = acc.1.faded_log.count aid ∧
        (aid ∉ acc.2.map (fun x => x.agent_id) →
          aid ∉ (decayStep env acc b).2.map (fun x => x.agent_id)) := by
      by_cases hid : b.agent_id = aid
      · unfold decayStep
        dsimp only
        rw [hid, if_neg (not_lt.mpr h)]
        exact ⟨rfl, rfl, fun hm => hm⟩
      · have hid' : ¬ aid = b.agent_id := fun hc => hid hc.symm
        unfold decayStep
        dsimp only
        split_ifs with h1 h2
        · refine ⟨?_, ?_, fun hm => hm⟩
          · show updateFn acc.1.agent_resources b.agent_id 0 aid = _
            unfold updateFn
            rw [if_neg hid']
          · show (acc.1.faded_log ++ [b.agent_id]).count aid = _
            have hc1 : List.count aid [b.agent_id] = 0 := by
              apply List.count_eq_zero.mpr
              intro hc
              exact hid' (List.mem_singleton.mp hc)
            rw [List.count_append, hc1, Nat.add_zero]
        · refine ⟨?_, rfl, ?_⟩
          · show updateFn acc.1.agent_resources b.agent_id _ aid = _
            unfold updateFn
            rw [if_neg hid']
          · intro hm hc
            rw [List.map_append] at hc
            rcases List.mem_append.mp hc with hc1 | hc2
            · exact hm hc1
            · rcases List.mem_singleton.mp hc2 with hc3
              exact hid hc3.symm
        · exact ⟨rfl, rfl, fun hm => hm⟩
    have hnext : (decayStep env acc b).1.agent_resources aid ≤ 0 := by
      rw [hb.1]
      exact h
    have hrest := ih (decayStep env acc b) hnext
    exact ⟨hrest.1.trans hb.1, hrest.2.1.trans hb.2.1, fun hm => hrest.2.2 (hb.2.2 hm)⟩

lemma decayStep_aid_other (env : Env) (acc : EngineState × List Agent) (b : Agent)
    (aid : String) (hid : ¬ b.agent_id = aid) :
    (decayStep env acc b).1.agent_resources aid = acc.1.agent_resources aid ∧
    (decayStep env acc b).1.faded_log.count aid = acc.1.faded_log.count aid ∧
    (aid ∉ acc.2.map (fun x => x.agent_id) →
      aid ∉ (decayStep env acc b).2.map (fun x => x.agent_id)) := by
  have hid' : ¬ aid = b.agent_id := fun hc => hid hc.symm
  unfold decayStep
  dsimp only
  split_ifs with h1 h2
  · refine ⟨?_, ?_, fun hm => hm⟩
    · show updateFn acc.1.agent_resources b.agent_id 0 aid = _
      unfold updateFn
      rw [if_neg hid']
    · show (acc.1.faded_log ++ [b.agent_id]).count aid = _
      have hc1 : List.count aid [b.agent_id] = 0 := by
        apply List.count_eq_zero.mpr
        intro hc
        exact hid' (List.mem_singleton.mp hc)
      rw [List.count_append, hc1, Nat.add_zero]
  · refine ⟨?_, rfl, ?_⟩
    · show updateFn acc.1.agent_resources b.agent_id _ aid = _
      unfold updateFn
      rw [if_neg hid']
    · intro hm hc
      rw [List.map_append] at hc
      rcases List.mem_append.mp hc with hc1 | hc2
      · exact hm hc1
      · exact hid (List.mem_singleton.mp hc2).symm
  · exact ⟨rfl, rfl, fun hm => hm⟩

lemma decay_fold_aid_notmem (env : Env) (aid : String) (l : List Agent)
    (acc : EngineState × List Agent) (h : aid ∉ l.map (fun x => x.agent_id)) :
    (l.foldl (decayStep env) acc).1.agent_resources aid = acc.1.agent_resources aid ∧
    (l.foldl (decayStep env) acc).1.faded_log.count aid = acc.1.faded_log.count aid ∧
    (aid ∉ acc.2.map (fun x => x.agent_id) →
      aid ∉ (l.foldl (decayStep env) acc).2.map (fun x => x.agent_id)) := by
  induction l generalizing acc with
  | nil => exact ⟨rfl, rfl, fun hm => hm⟩
  | cons b bs ih =>
    rw [List.map_cons, List.mem_cons, not_or] at h
    rcases h with ⟨hb, hbs⟩
    rw [List.foldl_cons]
    have hstep := decayStep_aid_other env acc b aid (fun hc => hb hc.symm)
    have hrest := ih (decayStep env acc b) hbs
    exact ⟨hrest.1.trans hstep.1, hrest.2.1.trans hstep.2.1,
      fun hm => hrest.2.2 (hstep.2.2 hm)⟩

lemma decayStep_aid_self_fade (env : Env) (acc : EngineState × List Agent) (b : Agent)
    (aid : String) (hid : b.agent_id = aid)
    (halive : 0 < acc.1.agent_resources b.agent_id)
    (hfade : acc.1.agent_resources b.agent_id - acc.1.agent_decay ≤ 0) :
    (decayStep env acc b).1.agent_resources aid = 0 ∧
    (decayStep env acc b).1.faded_log.count aid = acc.1.faded_log.count aid + 1 ∧
    (decayStep env acc b).2 = acc.2 := by
  unfold decayStep
  dsimp only
  rw [if_pos halive, if_pos hfade]
  refine ⟨?_, ?_, rfl⟩
  · show updateFn acc.1.agent_resources b.agent_id 0 aid = 0
    unfold updateFn
    rw [hid, if_pos rfl]
  · show (acc.1.faded_log ++ [b.agent_id]).count aid = _
    rw [List.count_append, hid]
    simp

lemma decayStep_aid_self_survive (env : Env) (acc : EngineState × List Agent) (b : Agent)
    (aid : String) (hid : b.agent_id = aid)
    (halive : 0 < acc.1.agent_resources b.agent_id)
    (hfade : ¬ acc.1.agent_resources b.agent_id - acc.1.agent_decay ≤ 0) :
    (decayStep env acc b).1.agent_resources aid =
      acc.1.agent_resources b.agent_id - acc.1.agent_decay ∧
    (decayStep env acc b).1.faded_log = acc.1.faded_log ∧
    (decayStep env acc b).2 = acc.2 ++ [b] := by
  unfold decayStep
  dsimp only
  rw [if_pos halive, if_neg hfade]
  refine ⟨?_, rfl, rfl⟩
  show updateFn acc.1.agent_resources b.agent_id _ aid = _
  unfold updateFn
  rw [hid, if_pos rfl]

lemma decay_fold_aid_alive (env : Env) (aid : String) (l : List Agent)
    (acc : EngineState × List Agent)
    (halive : 0 < acc.1.agent_resources aid)
    (hcount : (l.map (fun x => x.agent_id)).count aid ≤ 1) :
    (0 < (l.foldl (decayStep env) acc).1.agent_resources aid →
      (l.foldl (decayStep env) acc).1.faded_log.count aid =
        acc.1.faded_log.count aid) ∧
    ((l.foldl (decayStep env) acc).1.agent_resources aid ≤ 0 →
      (l.foldl (decayStep env) acc).1.agent_resources aid = 0 ∧
      (l.foldl (decayStep env) acc).1.faded_log.count aid =
        acc.1.faded_log.count aid + 1 ∧
      (aid ∉ acc.2.map (fun x => x.agent_id) →
        aid ∉ (l.foldl (decayStep env) acc).2.map (fun x => x.agent_id))) := by
  induction l generalizing acc with
  | nil =>
    refine ⟨fun _ => rfl, fun h0 => absurd halive (not_lt.mpr h0)⟩
  | cons b bs ih =>
    rw [List.foldl_cons]
    by_cases hid : b.agent_id = aid
    · have hcnt_tail : (bs.map (fun x => x.agent_id)).count aid = 0 := by
        rw [List.map_cons, hid, List.count_cons_self] at hcount
        omega
      have hnotin_tail : aid ∉ bs.map (fun x => x.agent_id) :=
        List.count_eq_zero.mp hcnt_tail
      have halive' : 0 < acc.1.agent_resources b.agent_id := by
        rw [hid]
        exact halive
      by_cases hfade : acc.1.agent_resources b.agent_id - acc.1.agent_decay ≤ 0
      · have hstep := decayStep_aid_self_fade env acc b aid hid halive' hfade
        have hdead := decay_fold_aid_dead env aid bs (decayStep env acc b)
          (by rw [hstep.1])
        refine ⟨?_, ?_⟩
        · intro h0
          rw [hdead.1, hstep.1] at h0
          exact absurd h0 (lt_irrefl 0)
        · intro _
          refine ⟨hdead.1.trans hstep.1, hdead.2.1.trans hstep.2.1, ?_⟩
          intro hm
          apply hdead.2.2
          rw [hstep.2.2]
          exact hm
      · have hstep := decayStep_aid_self_survive env acc b aid hid halive' hfade
        have hsur := decay_fold_aid_notmem env aid bs (decayStep env acc b) hnotin_tail
        refine ⟨?_, ?_⟩
        · intro _
          rw [hsur.2.1, hstep.2.1]
        · intro h0
          rw [hsur.1, hstep.1] at h0
          exact absurd h0 (not_le.mpr (lt_of_not_ge hfade))
    · have hstep := decayStep_aid_other env acc b aid hid
      have hcnt_tail : (bs.map (fun x => x.agent_id)).count aid ≤ 1 := by
        rw [List.map_cons, List.count_cons] at hcount
        omega
      have hrest := ih (decayStep env acc b) (by rw [hstep.1]; exact halive) hcnt_tail
      refine ⟨?_, ?_⟩
      · intro h0
        exact (hrest.1 h0).trans hstep.2.1
      · intro h0
        rcases hrest.2 h0 with ⟨hz, hc, hm⟩
        refine ⟨hz, by rw [hc, hstep.2.1], ?_⟩
        intro hmm
        exact hm (hstep.2.2 hmm)

lemma decayStep_active_cases (env : Env) (acc : EngineState × List Agent) (b : Agent) :
    (decayStep env acc b).2 = acc.2 ∨ (decayStep env acc b).2 = acc.2 ++ [b] := by
  unfold decayStep
  dsimp only
  split_ifs with h1 h2
  · exact Or.inl rfl
  · exact Or.inr rfl
  · exact Or.inl rfl

lemma decay_fold_active_nodup (env : Env) (l : List Agent)
    (acc : EngineState × List Agent)
    (h1 : (l.map (fun x => x.agent_id)).Nodup)
    (h2 : (acc.2.map (fun x => x.agent_id)).Nodup)
    (h3 : ∀ x ∈ acc.2.map (fun x => x.agent_id), x ∉ l.map (fun x => x.agent_id)) :
    ((l.foldl (decayStep env) acc).2.map (fun x => x.agent_id)).Nodup := by
  induction l generalizing acc with
  | nil => exact h2
  | cons b bs ih =>
    rw [List.map_cons] at h1
    rcases List.nodup_cons.mp h1 with ⟨hbnot, hbsnodup⟩
    rw [List.foldl_cons]
    have hcase := decayStep_active_cases env acc b
    apply ih (decayStep env acc b) hbsnodup
    · rcases hcase with hc | hc
      · rw [hc]
        exact h2
      · rw [hc, List.map_append]
        refine List.Nodup.append h2 (by simp) ?_
        intro x hx hx2
        have hxb : x = b.agent_id := by simpa using hx2
        subst hxb
        exact h3 _ hx (by simp)
    · intro x hx
      rcases hcase with hc | hc
      · rw [hc] at hx
        intro hmem
        exact h3 x hx (List.mem_cons_of_mem _ hmem)
      · rw [hc, List.map_append] at hx
        rcases List.mem_append.mp hx with hx1 | hx2
        · intro hmem
          exact h3 x hx1 (List.mem_cons_of_mem _ hmem)
        · rcases List.mem_singleton.mp hx2 with rfl
          intro hmem
          exact hbnot hmem

lemma process_take_false (env : Env) (a : Agent) (r : Response) (st : EngineState)
    (h : (process_take_action env a r st).1 = false) :
    (process_take_action env a r st).2 = st := by
  cases hfind : r.tool_calls.find? (fun tc => tc.name = "take_essence") with
  | none =>
    unfold process_take_action
    rw [hfind]
  | some tc =>
    unfold process_take_action at h
    rw [hfind] at h
    simp at h

/-- The step of one turn, seen from a bystander: the ghost faded log is
untouched, the vitality of every other agent is untouched, and the pending queue
becomes the popped tail, the cleared queue, or the tail with the popped agent
re-appended (the latter only in the dialogue case, which changes no
vitality). -/
lemma step_once_effects (env : Env) (st : EngineState) (a : Agent) (rest : List Agent)
    (hpend : st.pending_agents = a :: rest) :
    (step_once env st).2.faded_log = st.faded_log ∧
    (∀ x, x ≠ a.agent_id →
      (step_once env st).2.agent_resources x = st.agent_resources x) ∧
    (step_once env st).2.agents = st.agents ∧
    ((step_once env st).2.pending_agents = rest ∨
     (step_once env st).2.pending_agents = [] ∨
     ((step_once env st).2.pending_agents = rest ++ [a] ∧
       (step_once env st).2.agent_resources = st.agent_resources)) := by
  unfold step_once
  rw [hpend]
  dsimp only
  cases hresp : env.respond a (st.memories a.agent_id) (st.current_time + 1)
      st.global_resource (st.agent_resources a.agent_id) with
  | error e => exact ⟨rfl, fun x _ => rfl, rfl, Or.inl rfl⟩
  | ok r =>
    dsimp only
    set st1 : EngineState := { st with
      pending_agents := rest
      current_time := st.current_time + 1
      turns_in_round := st.turns_in_round + 1 } with hst1
    set st2 : EngineState := { st1 with
      memories := updateFn st1.memories a.agent_id
        (node_memorize env (st1.memories a.agent_id) r st1.current_time) } with hst2
    have hp := process_take_preserves env a r st2
    by_cases ht : (process_take_action env a r st2).1
    · rw [if_pos ht]
      by_cases hcap : (process_take_action env a r st2).2.max_discussion_turns ≤
          (process_take_action env a r st2).2.turns_in_round
      · rw [if_pos hcap]
        refine ⟨hp.2.2.2.2.2.2.1, ?_, hp.2.2.2.1, Or.inr (Or.inl rfl)⟩
        intro x hx
        exact process_take_res_other env a r st2 x hx
      · rw [if_neg hcap]
        refine ⟨hp.2.2.2.2.2.2.1, ?_, hp.2.2.2.1, Or.inl hp.2.2.1⟩
        intro x hx
        exact process_take_res_other env a r st2 x hx
    · rw [if_neg ht]
      have hfalse : (process_take_action env a r st2).1 = false :=
        Bool.eq_false_iff.mpr ht
      have hsame := process_take_false env a r st2 hfalse
      by_cases hc : r.content ≠ ""
      · rw [if_pos hc, hsame]
        split_ifs with hcap
        · exact ⟨rfl, fun x _ => rfl, rfl, Or.inr (Or.inl rfl)⟩
        · exact ⟨rfl, fun x _ => rfl, rfl, Or.inr (Or.inr ⟨rfl, rfl⟩)⟩
      · rw [if_neg hc, hsame]
        split_ifs with hcap
        · exact ⟨rfl, fun x _ => rfl, rfl, Or.inr (Or.inl rfl)⟩
        · exact ⟨rfl, fun x _ => rfl, rfl, Or.inr (Or.inr ⟨rfl, rfl⟩)⟩

lemma start_new_round_res (env : Env) (st : EngineState) :
    (start_new_round env st).agent_resources = (decayResult env st).1.agent_resources := by
  rw [start_new_round_eq]
  split_ifs <;> rfl

lemma start_new_round_faded (env : Env) (st : EngineState) :
    (start_new_round env st).faded_log = (decayResult env st).1.faded_log := by
  rw [start_new_round_eq]
  split_ifs <;> rfl

lemma decayResult_pending (env : Env) (st : EngineState) :
    (decayResult env st).1.pending_agents = st.pending_agents := by
  unfold decayResult
  rw [decay_fold_pending]
  rfl

lemma start_new_round_pending_cases (env : Env) (st : EngineState) :
    ((start_new_round env st).pending_agents = st.pending_agents ∧
      (decayResult env st).2 = []) ∨
    ((start_new_round env st).pending_agents =
        env.shuffleRound (decayResult env st).1.round_num (decayResult env st).2 ∧
      (decayResult env st).2 ≠ []) := by
  rw [start_new_round_eq]
  split_ifs with h
  · left
    have hp : (decayResult env st).1.pending_agents = st.pending_agents :=
      decayResult_pending env st
    exact ⟨hp, h⟩
  · right
    exact ⟨rfl, h⟩

lemma select_agents_ids (cfg : Config) (ids : List String) (st : EngineState) :
    (select_agents cfg ids st).agents.map (fun x => x.agent_id) =
      ids.filter (fun i => (cfg.agents.find? (fun a => a.id = i)).isSome) := by
  show (ids.filterMap (fun i =>
    (cfg.agents.find? (fun a => a.id = i)).map
      (fun a => (⟨a.id, a.name, a.personality⟩ : Agent)))).map (fun x => x.agent_id) = _
  induction ids with
  | nil => rfl
  | cons i rest ih =>
    cases hf : cfg.agents.find? (fun a => a.id = i) with
    | none => simp [List.filterMap_cons, List.filter_cons, hf, ih]
    | some a =>
      have hid : a.id = i := by
        have := List.find?_some hf
        simpa using this
      simp [List.filterMap_cons, List.filter_cons, hf, ih, hid]

lemma inv8_init (cfg : Config) (ids : List String) (hids : ids.Nodup) (aid : String) :
    Inv8 aid (select_agents cfg ids (reset_st cfg)) := by
  refine ⟨?_, ?_, fun _ => rfl, fun _ => ⟨by simp [pendingIds, select_agents, reset_st], by
    show (0 : ℕ) ≤ 1
    exact Nat.zero_le 1⟩⟩
  · rw [select_agents_ids]
    exact hids.filter _
  · show (([] : List Agent).map (fun x => x.agent_id)).Nodup
    simp

/-- A decay round in which the agent aid transitions from alive to dead emits
exactly one additional faded broadcast for it and keeps it out of the new
pending queue. -/
lemma start_new_round_death (env : Env) (st : EngineState) (aid : String)
    (hsh : ∀ r l, (env.shuffleRound r l).Perm l)
    (hA : (st.agents.map (fun x => x.agent_id)).Nodup)
    (halive : 0 < st.agent_resources aid)
    (hdead : (start_new_round env st).agent_resources aid ≤ 0)
    (hpend : st.pending_agents = []) :
    (start_new_round env st).agent_resources aid = 0 ∧
    fadedCount (start_new_round env st) aid = fadedCount st aid + 1 ∧
    aid ∉ pendingIds (start_new_round env st) := by
  have hcount : (((preDecayState st).agents).map (fun x => x.agent_id)).count aid ≤ 1 := by
    rw [preDecay_agents]
    exact List.nodup_iff_count_le_one.mp hA aid
  have halive' : 0 < (preDecayState st, ([] : List Agent)).1.agent_resources aid := halive
  have hfold := decay_fold_aid_alive env aid (preDecayState st).agents
    (preDecayState st, []) halive' hcount
  have hdead' : (decayResult env st).1.agent_resources aid ≤ 0 := by
    rw [← start_new_round_res]
    exact hdead
  rcases hfold.2 hdead' with ⟨hz, hc, hm⟩
  refine ⟨by rw [start_new_round_res]; exact hz, ?_, ?_⟩
  · show (start_new_round env st).faded_log.count aid = st.faded_log.count aid + 1
    rw [start_new_round_faded]
    exact hc
  · have hnact : aid ∉ (decayResult env st).2.map (fun x => x.agent_id) :=
      hm (by simp)
    rcases start_new_round_pending_cases env st with ⟨hp, _⟩ | ⟨hp, _⟩
    · unfold pendingIds
      rw [hp, hpend]
      simp
    · unfold pendingIds
      rw [hp]
      intro hmem
      rcases List.mem_map.mp hmem with ⟨ag, hag, rfl⟩
      exact hnact (List.mem_map.mpr ⟨ag, (hsh _ _).subset hag, rfl⟩)

lemma inv8_start (env : Env) (aid : String) (st : EngineState)
    (hsh : ∀ r l, (env.shuffleRound r l).Perm l)
    (hpend : st.pending_agents = [])
    (h : Inv8 aid st) : Inv8 aid (start_new_round env st) := by
  obtain ⟨hA, hPN, h3, h4⟩ := h
  have hagents : (start_new_round env st).agents = st.agents :=
    (start_new_round_shape env st).2.2.2
  have hcount : (((preDecayState st).agents).map (fun x => x.agent_id)).count aid ≤ 1 := by
    rw [preDecay_agents]
    exact List.nodup_iff_count_le_one.mp hA aid
  refine ⟨by rw [hagents]; exact hA, ?_, ?_, ?_⟩
  · rcases start_new_round_pending_cases env st with ⟨hp, _⟩ | ⟨hp, _⟩
    · unfold pendingIds
      rw [hp, hpend]
      simp
    · unfold pendingIds
      rw [hp]
      have hperm := ((hsh (decayResult env st).1.round_num (decayResult env st).2).map
        (fun x => x.agent_id))
      rw [hperm.nodup_iff]
      apply decay_fold_active_nodup env (preDecayState st).agents (preDecayState st, [])
      · rw [preDecay_agents]
        exact hA
      · simp
      · intro x hx
        simp at hx
  · intro halive'
    rw [show (start_new_round env st).agent_resources = (decayResult env st).1.agent_resources
      from start_new_round_res env st] at halive'
    by_cases hold : 0 < st.agent_resources aid
    · have hfold := decay_fold_aid_alive env aid (preDecayState st).agents
        (preDecayState st, []) hold hcount
      show (start_new_round env st).faded_log.count aid = 0
      rw [start_new_round_faded]
      exact (hfold.1 halive').trans (h3 hold)
    · have hfold := decay_fold_aid_dead env aid (preDecayState st).agents
        (preDecayState st, []) (not_lt.mp hold)
      have hres_eq : (decayResult env st).1.agent_resources aid = st.agent_resources aid :=
        hfold.1
      rw [hres_eq] at halive'
      exact absurd halive' hold
  · intro hdead'
    rw [show (start_new_round env st).agent_resources = (decayResult env st).1.agent_resources
      from start_new_round_res env st] at hdead'
    by_cases hold : 0 < st.agent_resources aid
    · have hd := start_new_round_death env st aid hsh hA hold
        (by rw [start_new_round_res]; exact hdead') hpend
      refine ⟨hd.2.2, ?_⟩
      show (start_new_round env st).faded_log.count aid ≤ 1
      have := hd.2.1
      show fadedCount (start_new_round env st) aid ≤ 1
      rw [this, h3 hold]
    · have hold' : st.agent_resources aid ≤ 0 := not_lt.mp hold
      rcases h4 hold' with ⟨hnp, hcnt⟩
      have hfold := decay_fold_aid_dead env aid (preDecayState st).agents
        (preDecayState st, []) hold'
      have hnact : aid ∉ (decayResult env st).2.map (fun x => x.agent_id) :=
        hfold.2.2 (by simp)
      have hcnt_eq : (decayResult env st).1.faded_log.count aid =
          st.faded_log.count aid := hfold.2.1
      constructor
      · rcases start_new_round_pending_cases env st with ⟨hp, _⟩ | ⟨hp, _⟩
        · unfold pendingIds
          rw [hp, hpend]
          simp
        · unfold pendingIds
          rw [hp]
          intro hmem
          rcases List.mem_map.mp hmem with ⟨ag, hag, rfl⟩
          exact hnact (List.mem_map.mpr ⟨ag, (hsh _ _).subset hag, rfl⟩)
      · show (start_new_round env st).faded_log.count aid ≤ 1
        rw [start_new_round_faded, hcnt_eq]
        exact hcnt

lemma pendingIds_cons {st : EngineState} {a : Agent} {rest : List Agent}
    (hpend : st.pending_agents = a :: rest) :
    pendingIds st = a.agent_id :: rest.map (fun x => x.agent_id) := by
  unfold pendingIds
  rw [hpend, List.map_cons]

lemma inv8_step (env : Env) (aid : String) (st : EngineState)
    (hpend : st.pending_agents ≠ []) (h : Inv8 aid st) : Inv8 aid (step_once env st).2 := by
  obtain ⟨hA, hPN, h3, h4⟩ := h
  rcases hlist : st.pending_agents with _ | ⟨a, rest⟩
  · exact absurd hlist hpend
  · have hse := step_once_effects env st a rest hlist
    have hPN' := hPN
    rw [pendingIds_cons hlist] at hPN'
    rcases List.nodup_cons.mp hPN' with ⟨hanot, hrestnodup⟩
    have hcnt_eq : fadedCount (step_once env st).2 aid = fadedCount st aid := by
      show (step_once env st).2.faded_log.count aid = st.faded_log.count aid
      rw [hse.1]
    refine ⟨by rw [hse.2.2.1]; exact hA, ?_, ?_, ?_⟩
    · rcases hse.2.2.2 with hp | hp | ⟨hp, _⟩
      · unfold pendingIds
        rw [hp]
        exact hrestnodup
      · unfold pendingIds
        rw [hp]
        simp
      · unfold pendingIds
        rw [hp, List.map_append]
        refine List.Nodup.append hrestnodup (by simp) ?_
        intro x hx hx2
        have hxb : x = a.agent_id := by simpa using hx2
        subst hxb
        exact hanot hx
    · intro halive'
      rw [hcnt_eq]
      by_cases hxa : aid = a.agent_id
      · by_cases hold : 0 < st.agent_resources aid
        · exact h3 hold
        · rcases h4 (not_lt.mp hold) with ⟨hnp, _⟩
          rw [pendingIds_cons hlist] at hnp
          exact absurd (hxa ▸ List.mem_cons_self _ _) hnp
      · rw [hse.2.1 aid hxa] at halive'
        exact h3 halive'
    · intro hdead'
      rw [hcnt_eq]
      by_cases hxa : aid = a.agent_id
      · have hold : 0 < st.agent_resources aid := by
          by_contra hcon
          rcases h4 (not_lt.mp hcon) with ⟨hnp, _⟩
          rw [pendingIds_cons hlist] at hnp
          exact hnp (hxa ▸ List.mem_cons_self _ _)
        refine ⟨?_, by rw [h3 hold]; exact Nat.zero_le 1⟩
        rcases hse.2.2.2 with hp | hp | ⟨hp, hreq⟩
        · unfold pendingIds
          rw [hp]
          rw [hxa]
          exact hanot
        · unfold pendingIds
          rw [hp]
          simp
        · rw [hreq] at hdead'
          exact absurd hdead' (not_le.mpr hold)
      · rw [hse.2.1 aid hxa] at hdead'
        rcases h4 hdead' with ⟨hnp, hcnt⟩
        rw [pendingIds_cons hlist] at hnp
        rw [List.mem_cons, not_or] at hnp
        rcases hnp with ⟨hna, hnr⟩
        refine ⟨?_, hcnt⟩
        rcases hse.2.2.2 with hp | hp | ⟨hp, _⟩
        · unfold pendingIds
          rw [hp]
          exact hnr
        · unfold pendingIds
          rw [hp]
          simp
        · unfold pendingIds
          rw [hp, List.map_append]
          intro hmem
          rcases List.mem_append.mp hmem with hm1 | hm2
          · exact hnr hm1
          · exact hna (by simpa using hm2)

lemma inv8_poll (aid : String) (st : EngineState) (h : Inv8 aid st) :
    Inv8 aid (get_next_message st).2 := by
  have hp := get_next_message_preserves st
  obtain ⟨hA, hPN, h3, h4⟩ := h
  have hcnt : fadedCount (get_next_message st).2 aid = fadedCount st aid := by
    show (get_next_message st).2.faded_log.count aid = st.faded_log.count aid
    rw [hp.2.2.2.2.2.2.1]
  have hpend : pendingIds (get_next_message st).2 = pendingIds st := by
    unfold pendingIds
    rw [hp.2.2.1]
  refine ⟨by rw [hp.2.2.2.1]; exact hA, by rw [hpend]; exact hPN, ?_, ?_⟩
  · intro halive'
    rw [hp.2.2.2.2.2.1] at halive'
    rw [hcnt]
    exact h3 halive'
  · intro hdead'
    rw [hp.2.2.2.2.2.1] at hdead'
    rw [hcnt, hpend]
    exact h4 hdead'

lemma inv8_settings (aid : String) (ns : NewSettings) (st : EngineState) (h : Inv8 aid st) :
    Inv8 aid (update_settings ns st) := by
  have hp := update_settings_preserves ns st
  obtain ⟨hA, hPN, h3, h4⟩ := h
  have hcnt : fadedCount (update_settings ns st) aid = fadedCount st aid := by
    show (update_settings ns st).faded_log.count aid = st.faded_log.count aid
    rw [hp.2.2.2.2.2.2.1]
  have hpend : pendingIds (update_settings ns st) = pendingIds st := by
    unfold pendingIds
    rw [hp.2.2.1]
  refine ⟨by rw [hp.2.2.2.1]; exact hA, by rw [hpend]; exact hPN, ?_, ?_⟩
  · intro halive'
    rw [hp.2.2.2.2.2.1] at halive'
    rw [hcnt]
    exact h3 halive'
  · intro hdead'
    rw [hp.2.2.2.2.2.1] at hdead'
    rw [hcnt, hpend]
    exact h4 hdead'

lemma inv8_preserved (env : Env) (aid : String)
    (hsh : ∀ r l, (env.shuffleRound r l).Perm l)
    {st st' : EngineState} (hstep : FineStep env st st') (h : Inv8 aid st) : Inv8 aid st' := by
  cases hstep with
  | startRound h1 h2 h3 => exact inv8_start env aid st hsh h2 h
  | stepTurn hne => exact inv8_step env aid st hne h
  | poll => exact inv8_poll aid st h
  | settings ns => exact inv8_settings aid ns st h

lemma deadP_start (env : Env) (aid : String) (st : EngineState)
    (hsh : ∀ r l, (env.shuffleRound r l).Perm l)
    (hd : DeadP aid st) : DeadP aid (start_new_round env st) := by
  obtain ⟨hz, hc, hnp⟩ := hd
  have hfold := decay_fold_aid_dead env aid (preDecayState st).agents
    (preDecayState st, []) (by show st.agent_resources aid ≤ 0; rw [hz])
  have hres_eq : (decayResult env st).1.agent_resources aid = st.agent_resources aid :=
    hfold.1
  have hcnt_eq : (decayResult env st).1.faded_log.count aid =
      st.faded_log.count aid := hfold.2.1
  have hnact : aid ∉ (decayResult env st).2.map (fun x => x.agent_id) :=
    hfold.2.2 (by simp)
  refine ⟨?_, ?_, ?_⟩
  · rw [show (start_new_round env st).agent_resources = (decayResult env st).1.agent_resources
      from start_new_round_res env st, hres_eq]
    exact hz
  · show (start_new_round env st).faded_log.count aid = 1
    rw [start_new_round_faded, hcnt_eq]
    exact hc
  · rcases start_new_round_pending_cases env st with ⟨hp, _⟩ | ⟨hp, _⟩
    · unfold pendingIds
      rw [hp]
      exact hnp
    · unfold pendingIds
      rw [hp]
      intro hmem
      rcases List.mem_map.mp hmem with ⟨ag, hag, rfl⟩
      exact hnact (List.mem_map.mpr ⟨ag, (hsh _ _).subset hag, rfl⟩)

lemma deadP_step (env : Env) (aid : String) (st : EngineState)
    (hd : DeadP aid st) : DeadP aid (step_once env st).2 := by
  obtain ⟨hz, hc, hnp⟩ := hd
  rcases hlist : st.pending_agents with _ | ⟨a, rest⟩
  · have : step_once env st = (none, st) := by
      unfold step_once
      rw [hlist]
    rw [this]
    exact ⟨hz, hc, hnp⟩
  · have hse := step_once_effects env st a rest hlist
    have hna : aid ≠ a.agent_id := by
      intro hc2
      apply hnp
      rw [pendingIds_cons hlist, hc2]
      exact List.mem_cons_self _ _
    have hnr : aid ∉ rest.map (fun x => x.agent_id) := by
      intro hc2
      apply hnp
      rw [pendingIds_cons hlist]
      exact List.mem_cons_of_mem _ hc2
    refine ⟨?_, ?_, ?_⟩
    · rw [hse.2.1 aid hna]
      exact hz
    · show (step_once env st).2.faded_log.count aid = 1
      rw [hse.1]
      exact hc
    · rcases hse.2.2.2 with hp | hp | ⟨hp, _⟩
      · unfold pendingIds
        rw [hp]
        exact hnr
      · unfold pendingIds
        rw [hp]
        simp
      · unfold pendingIds
        rw [hp, List.map_append]
        intro hmem
        rcases List.mem_append.mp hmem with hm1 | hm2
        · exact hnr hm1
        · exact hna (by simpa using hm2)

lemma deadP_poll (aid : String) (st : EngineState) (hd : DeadP aid st) :
    DeadP aid (get_next_message st).2 := by
  have hp := get_next_message_preserves st
  obtain ⟨hz, hc, hnp⟩ := hd
  refine ⟨by rw [hp.2.2.2.2.2.1]; exact hz, ?_, ?_⟩
  · show (get_next_message st).2.faded_log.count aid = 1
    rw [hp.2.2.2.2.2.2.1]
    exact hc
  · unfold pendingIds
    rw [hp.2.2.1]
    exact hnp

lemma deadP_settings (aid : String) (ns : NewSettings) (st : EngineState)
    (hd : DeadP aid st) : DeadP aid (update_settings ns st) := by
  have hp := update_settings_preserves ns st
  obtain ⟨hz, hc, hnp⟩ := hd
  refine ⟨by rw [hp.2.2.2.2.2.1]; exact hz, ?_, ?_⟩
  · show (update_settings ns st).faded_log.count aid = 1
    rw [hp.2.2.2.2.2.2.1]
    exact hc
  · unfold pendingIds
    rw [hp.2.2.1]
    exact hnp

lemma deadP_preserved (env : Env) (aid : String)
    (hsh : ∀ r l, (env.shuffleRound r l).Perm l)
    {st st' : EngineState} (hstep : FineStep env st st') (hd : DeadP aid st) :
    DeadP aid st' := by
  cases hstep with
  | startRound h1 h2 h3 => exact deadP_start env aid st hsh hd
  | stepTurn hne => exact deadP_step env aid st hd
  | poll => exact deadP_poll aid st hd
  | settings ns => exact deadP_settings aid ns st hd

lemma inv8_reach (env : Env) (aid : String)
    (hsh : ∀ r l, (env.shuffleRound r l).Perm l)
    (cfg : Config) (ids : List String) (hids : ids.Nodup) {st : EngineState}
    (h : Reach env (select_agents cfg ids (reset_st cfg)) st) : Inv8 aid st := by
  induction h with
  | refl => exact inv8_init cfg ids hids aid
  | tail hsteps hstep ih => exact inv8_preserved env aid hsh hstep ih

lemma deadP_reach (env : Env) (aid : String)
    (hsh : ∀ r l, (env.shuffleRound r l).Perm l)
    {st st' : EngineState} (h : Reach env st st') (hd : DeadP aid st) : DeadP aid st' := by
  induction h with
  | refl => exact hd
  | tail hsteps hstep ih => exact deadP_preserved env aid hsh hstep ih

/-- C8.  If the vitality of an agent reaches 0 during a round-start decay, exactly
one faded system broadcast is emitted for it over the whole simulation, and
from that round on the agent never appears in the pending queue: in every
state reachable after the fatal round start the faded count for the agent is
exactly one and its id is absent from the pending queue.  The hypotheses say
that the run began at a freshly selected simulation with duplicate-free ids,
that the injected shuffle is a permutation, that the fatal round start was
taken under the round-advance guards, and that the agent was alive before the
decay and at zero vitality after it. -/
theorem c8_faded_once_and_excluded (env : Env)
    (hsh : ∀ r l, (env.shuffleRound r l).Perm l)
    (cfg : Config) (ids : List String) (hids : ids.Nodup)
    (aid : String) (st0 st2 : EngineState)
    (h0 : Reach env (select_agents cfg ids (reset_st cfg)) st0)
    (hrun : st0.is_running = true)
    (hpend : st0.pending_agents = [])
    (hround : st0.round_num < st0.max_rounds)
    (halive : 0 < st0.agent_resources aid)
    (hdead : (start_new_round env st0).agent_resources aid ≤ 0)
    (h2 : Reach env (start_new_round env st0) st2) :
    fadedCount st2 aid = 1 ∧ aid ∉ pendingIds st2 := by
  have hinv0 : Inv8 aid st0 := inv8_reach env aid hsh cfg ids hids h0
  have hcnt0 : fadedCount st0 aid = 0 := hinv0.2.2.1 halive
  have hdeath := start_new_round_death env st0 aid hsh hinv0.1 halive hdead hpend
  have hdead1 : DeadP aid (start_new_round env st0) :=
    ⟨hdeath.1, by rw [hdeath.2.1, hcnt0], hdeath.2.2⟩
  have hdead2 : DeadP aid st2 := deadP_reach env aid hsh h2 hdead1
  exact ⟨hdead2.2.1, hdead2.2.2⟩

/-- Witness for C8: the single agent of the fatal-decay configuration is
alive after selection, dies in the first decay, and the post-decay state
itself shows one faded broadcast and an empty pending queue. -/
theorem c8_faded_once_and_excluded_witness :
    (["a"] : List String).Nodup ∧
    st0F.is_running = true ∧
    st0F.pending_agents = [] ∧
    st0F.round_num < st0F.max_rounds ∧
    0 < st0F.agent_resources "a" ∧
    (start_new_round envW st0F).agent_resources "a" ≤ 0 ∧
    fadedCount st1F "a" = 1 ∧ "a" ∉ pendingIds st1F := by
  have h := c8_faded_once_and_excluded envW (fun _ l => List.Perm.refl l) cfgFadeW ["a"]
    (by decide) "a" st0F st1F Relation.ReflTransGen.refl rfl rfl (by decide) (by decide)
    (by decide) Relation.ReflTransGen.refl
  exact ⟨by decide, rfl, rfl, by decide, by decide, by decide, h.1, h.2⟩

end FadingLight
